import Mathlib

/-!
# Foreman organization: API client functions, resource and data source

A shallow embedding of

* `foreman/api/organization.go` (`CreateOrganization`, `ReadOrganization`,
  `UpdateOrganization`, `DeleteOrganization`, `QueryOrganization`),
* `foreman/resource_foreman_organization.go` (conversion helpers and the
  resource lifecycle callbacks),
* `foreman/data_source_foreman_organization.go` (the data source read).

Conventions of the embedding.

* A Go `string` is a Lean `String`; where Go works on the bytes of a string
  (package `net/url`) the bytes are the UTF-8 encoding, a list of naturals
  below 256.
* A Go `error` is `Option GoError` (`none` is `nil`); a Go pointer result
  `*ForemanOrganization` is `Option ForemanOrganization`.
* Every function that talks to the remote service returns, next to its Go
  result, the list of requests it handed to `SendAndParse`, in order.
* JSON documents are syntax trees (`JSON`) with exact number literals; the
  values the transport decodes generically are Go values (`Generic`), whose
  numbers are `float64`.  `encoding/json` is modelled on these trees, not on
  text; what `json.Marshal` writes for a `float64` is computed.
* Logging calls (`log.Tracef`, `log.Debugf`) have no effect on the results and
  are left out.
* The callbacks receive the client as `meta`; the assertion `meta.(*api.Client)`
  is taken to succeed, so the callbacks take a `Client`.
* A Go `int` is 64 bits wide; `Id` fields are integers, and the one place where
  the width decides the outcome, decoding a JSON number into an `int`, checks
  the range explicitly.
-/

namespace Foreman

/-! ## Go values -/

/-- A Go error value, identified by its message (`err.Error()`). -/
structure GoError where
  msg : String
deriving DecidableEq, Repr

/-- The call `fmt.Errorf(msg)` for a format string without verbs. -/
def Errorf (msg : String) : GoError := ⟨msg⟩

/-- The text `strconv.Itoa` and the verb `%d` produce for a Go `int`: the
decimal digits, preceded by `-` for a negative number. -/
def Itoa (i : Int) : String :=
  match i with
  | Int.ofNat n => Nat.repr n
  | Int.negSucc n => "-" ++ Nat.repr (n + 1)

/-- `strings.Contains(s, sub)`. -/
def Contains (s sub : String) : Prop := sub.data <:+: s.data

/-- The bytes of a Go string: the UTF-8 encoding of the text. -/
def utf8 (s : String) : List Nat :=
  s.data.flatMap (fun ch => (String.utf8EncodeChar ch).map UInt8.toNat)

/-! ## JSON trees and `encoding/json` -/

/-- A JSON document.  `num n` is a number literal without fraction or
exponent, of value `n`; `nonint lit` is any other number literal.  The members
of an object are listed in the order `json.Marshal` writes the keys of a Go map
(ascending). -/
inductive JSON where
  | null
  | bool (b : Bool)
  | num (n : Int)
  | nonint (lit : String)
  | str (s : String)
  | arr (items : List JSON)
  | obj (members : List (String × JSON))

/-- A value the transport decodes into an `interface\x7b\x7d`: `nil`, `bool`,
`float64`, `string`, `[]interface\x7b\x7d` or `map[string]interface\x7b\x7d`.
`number n` is the `float64` stored for a JSON number of integer value `n`, the
`float64` nearest to `n`; `fraction lit` is the `float64` of any other number,
kept as the literal `json.Marshal` writes for it. -/
inductive Generic where
  | null
  | bool (b : Bool)
  | number (n : Int)
  | fraction (lit : String)
  | str (s : String)
  | arr (items : List Generic)
  | obj (members : List (String × Generic))

/-- Modelled from the spec: the base type `ForemanObject` is declared outside
the given sources; the spec gives it as `Id: integer, Name: string` with the
JSON body shape `"id": <int>, "name": "<string>"`. -/
structure ForemanObject where
  Id : Int := 0
  Name : String := ""
deriving DecidableEq, Repr

/-- The struct `ForemanOrganization` of organization.go: it embeds `ForemanObject`
and adds nothing. -/
structure ForemanOrganization extends ForemanObject
deriving DecidableEq, Repr

/-- An element of `QueryResponse.Results` (Go `interface\x7b\x7d`): either a
value the transport decoded generically from JSON, or a typed
`api.ForemanOrganization`. -/
inductive Iface where
  | generic (v : Generic)
  | organization (o : ForemanOrganization)

/-- Modelled from the spec: the envelope `QueryResponse` is declared outside the
given sources; the spec gives it as `Subtotal: integer, Results: sequence of
opaque result records`. -/
structure QueryResponse where
  Subtotal : Int := 0
  Results : List Iface := []

/-- Lower bound of a 64-bit Go `int`. -/
def minInt : Int := -(2 ^ 63)

/-- Upper bound of a 64-bit Go `int`. -/
def maxInt : Int := 2 ^ 63 - 1

/-- The call `json.Marshal(e)` for a `*ForemanOrganization`: an object with the
members of the JSON body shape, every field of the struct included.  It cannot
fail for a struct of an `int` and a `string`. -/
def jsonMarshal (e : ForemanOrganization) : Except GoError JSON :=
  .ok (.obj [("id", .num e.Id), ("name", .str e.Name)])

/-- Number of binary digits of `a`, found in at most `fuel` halvings. -/
def bitsFrom : Nat → Nat → Nat
  | 0, _ => 0
  | fuel + 1, a => if a = 0 then 0 else bitsFrom fuel (a / 2) + 1

/-- Number of binary digits of `a` (`bits.Len`). -/
def bitLength (a : Nat) : Nat := bitsFrom a a

/-- The integer value of the `float64` nearest to the integer `n` (ties to the
even mantissa), as the decoder stores it.  Up to `2^53` every integer is a
`float64`; beyond, the 53 leading binary digits are kept.  (A literal beyond
the range of `float64` does not decode and is not considered.) -/
def nearestFloat64 (n : Int) : Int :=
  let a := n.natAbs
  if a ≤ 2 ^ 53 then n
  else
    let e := bitLength a - 53
    let q := a / 2 ^ e
    let r := a % 2 ^ e
    let half := 2 ^ (e - 1)
    let q1 := if r > half ∨ (r = half ∧ q % 2 = 1) then q + 1 else q
    Int.sign n * ((q1 * 2 ^ e : Nat) : Int)

/-- The multiple of `10^k` that `strconv` would print for the value `a`, if
one lies in the rounding interval of `a`, whose bounds are given four-fold as
`low` and `up`: the nearer of the two neighbours of `a`, the one with the even
last digit on a tie. -/
def shortestAt (a low up : Nat) (inclusive : Bool) (k : Nat) : Option Nat :=
  let p := 10 ^ k
  let down := a / p * p
  let above := down + p
  let inside := fun c : Nat =>
    if inclusive then low ≤ 4 * c ∧ 4 * c ≤ up else low < 4 * c ∧ 4 * c < up
  if inside down ∧ inside above then
    if a - down < above - a then some down
    else if above - a < a - down then some above
    else if down / p % 2 = 0 then some down else some above
  else if inside down then some down
  else if inside above then some above
  else none

/-- The decimal with the fewest significant digits in the rounding interval of
`a`: the largest `k` not above the given one for which `shortestAt` finds a
multiple of `10^k`; `a` itself at the latest. -/
def shortestFrom (a low up : Nat) (inclusive : Bool) : Nat → Nat
  | 0 => a
  | k + 1 =>
    match shortestAt a low up inclusive (k + 1) with
    | some c => c
    | none => shortestFrom a low up inclusive k

/-- The integer denoted by the digits `strconv.AppendFloat(_, v, _, -1, 64)`
writes for a `float64` of integer value `v`: the shortest decimal that reads
back as `v`, the one nearest to `v` among those.  Up to `2^53` the neighbouring
`float64` values are at most 1 apart and the digits are those of `v`; beyond,
the interval reaches half way to the neighbours (a quarter of the upper gap
below a power of two) and includes its bounds when the mantissa is even. -/
def shortestDecimal (v : Int) : Int :=
  let a := v.natAbs
  if a ≤ 2 ^ 53 then v
  else
    let e := bitLength a - 53
    let m := a / 2 ^ e
    let up := 4 * a + 2 * 2 ^ e
    let low := 4 * a - (if m = 2 ^ 52 then 2 ^ e else 2 * 2 ^ e)
    Int.sign v * ((shortestFrom a low up (m % 2 = 0) (Nat.repr a).length : Nat) : Int)

/-- The digits of `a` without its trailing zeros, for the exponent format. -/
def dropZeros : Nat → Nat → Nat
  | 0, a => a
  | fuel + 1, a => if a ≠ 0 ∧ a % 10 = 0 then dropZeros fuel (a / 10) else a

/-- What `json.Marshal` writes for a `float64` of integer value `v`: below
`10^21` the shortest decimal in plain digits, from `10^21` on the exponent
format `d.ddde+xx`. -/
def marshalFloat64 (v : Int) : JSON :=
  if v.natAbs < 10 ^ 21 then .num (shortestDecimal v)
  else
    let s := (shortestDecimal v).natAbs
    let digits := Nat.repr (dropZeros (Nat.repr s).length s)
    let mantissa :=
      if digits.length ≤ 1 then digits
      else String.mk (digits.data.take 1) ++ "." ++ String.mk (digits.data.drop 1)
    .nonint ((if v < 0 then "-" else "") ++ mantissa ++ "e+" ++
      Nat.repr ((Nat.repr s).length - 1))

mutual
/-- What `json.Marshal` writes for a generic value: a `float64` in its shortest
decimal form, everything else as it is. -/
def Generic.toJSON : Generic → JSON
  | .null => .null
  | .bool b => .bool b
  | .number n => marshalFloat64 (nearestFloat64 n)
  | .fraction lit => .nonint lit
  | .str s => .str s
  | .arr items => .arr (toJSONItems items)
  | .obj members => .obj (toJSONMembers members)
/-- What `json.Marshal` writes for the elements of a generic slice. -/
def toJSONItems : List Generic → List JSON
  | [] => []
  | v :: rest => v.toJSON :: toJSONItems rest
/-- What `json.Marshal` writes for the members of a generic map. -/
def toJSONMembers : List (String × Generic) → List (String × JSON)
  | [] => []
  | (key, v) :: rest => (key, v.toJSON) :: toJSONMembers rest
end

/-- What `json.Marshal` writes for one element of a `[]interface\x7b\x7d`: a
generic value as `Generic.toJSON` gives it, an organization as its struct. -/
def Iface.toJSON : Iface → JSON
  | .generic v => v.toJSON
  | .organization o => .obj [("id", .num o.Id), ("name", .str o.Name)]

/-- The call `json.Marshal(queryResponse.Results)`; it cannot fail on values
that were decoded from JSON. -/
def jsonMarshalResults (results : List Iface) : Except GoError (List JSON) :=
  .ok (results.map Iface.toJSON)

/-- Key folding of `encoding/json`: a member whose key has no exact match is
matched against the field names without regard to letter case. -/
def foldName (key : String) : String := String.mk (key.data.map Char.toLower)

/-- The error `json.Unmarshal` reports for a value that does not fit its
destination (`*json.UnmarshalTypeError`). -/
def unmarshalTypeError (field : String) : GoError :=
  ⟨"json: cannot unmarshal value into Go struct field ForemanOrganization." ++ field⟩

/-- Decoding of one object member into the struct: `id` goes to `Id` and must
be a number that is an integer within the range of `int`, `name` goes to `Name`
and must be a string, `null` leaves the field as it is, any other key is
skipped. -/
def decodeMember (o : ForemanOrganization) (key : String) (v : JSON) :
    Except GoError ForemanOrganization :=
  if foldName key = "id" then
    match v with
    | .null => .ok o
    | .num n => if minInt ≤ n ∧ n ≤ maxInt then .ok { o with Id := n }
                else .error (unmarshalTypeError "id")
    | _ => .error (unmarshalTypeError "id")
  else if foldName key = "name" then
    match v with
    | .null => .ok o
    | .str s => .ok { o with Name := s }
    | _ => .error (unmarshalTypeError "name")
  else .ok o

/-- Decoding of the members of an object, in order, into the struct. -/
def decodeMembers (o : ForemanOrganization) :
    List (String × JSON) → Except GoError ForemanOrganization
  | [] => .ok o
  | (key, v) :: rest =>
    match decodeMember o key v with
    | .error err => .error err
    | .ok o1 => decodeMembers o1 rest

/-- Decoding of one array element into a fresh `ForemanOrganization`: an object
is decoded member by member, `null` leaves the zero value, anything else is a
type error. -/
def decodeOrganization : JSON → Except GoError ForemanOrganization
  | .null => .ok {}
  | .obj members => decodeMembers {} members
  | _ => .error (unmarshalTypeError "")

/-- The call `json.Unmarshal(resultsBytes, &results)` with
`results : []ForemanOrganization`: every element is decoded, the first failure
is the error returned. -/
def jsonUnmarshalOrganizations : List JSON → Except GoError (List ForemanOrganization)
  | [] => .ok []
  | v :: rest =>
    match decodeOrganization v with
    | .error err => .error err
    | .ok o =>
      match jsonUnmarshalOrganizations rest with
      | .error err => .error err
      | .ok os => .ok (o :: os)

/-! ## Package `net/url`, on bytes -/

/-- The bytes of a Go string inside package `net/url`. -/
abbrev Bytes := List Nat

/-- The constant `upperhex = "0123456789ABCDEF"`, as byte values. -/
def upperhex : Bytes := [48, 49, 50, 51, 52, 53, 54, 55, 56, 57, 65, 66, 67, 68, 69, 70]

/-- The test `shouldEscape(c, encodeQueryComponent)`: the unreserved characters
(letters, digits, `-`, `_`, `.`, `~`) are kept, everything else is escaped. -/
def shouldEscape (c : Nat) : Bool :=
  if (97 ≤ c ∧ c ≤ 122) ∨ (65 ≤ c ∧ c ≤ 90) ∨ (48 ≤ c ∧ c ≤ 57) then false
  else if c = 45 ∨ c = 95 ∨ c = 46 ∨ c = 126 then false
  else true

/-- One step of the writing loop of `escape(s, encodeQueryComponent)`: a space
becomes `+`, a byte to escape becomes `%` and two upper-case hex digits
(`upperhex[c>>4]`, `upperhex[c&15]`), any other byte is copied. -/
def escapeByte (c : Nat) : Bytes :=
  if c = 32 then [43]
  else if shouldEscape c then [37, upperhex.getD (c / 16) 0, upperhex.getD (c % 16) 0]
  else [c]

/-- The function `url.QueryEscape`. -/
def QueryEscape (s : Bytes) : Bytes := s.flatMap escapeByte

/-- The test `ishex`. -/
def ishex (c : Nat) : Bool :=
  (48 ≤ c ∧ c ≤ 57) ∨ (97 ≤ c ∧ c ≤ 102) ∨ (65 ≤ c ∧ c ≤ 70)

/-- The function `unhex`. -/
def unhex (c : Nat) : Nat :=
  if 48 ≤ c ∧ c ≤ 57 then c - 48
  else if 97 ≤ c ∧ c ≤ 102 then c - 97 + 10
  else if 65 ≤ c ∧ c ≤ 70 then c - 65 + 10
  else 0

/-- The function `url.QueryUnescape`: `%XY` is the byte with hex digits `X`, `Y`
(an error, here `none`, when two hex digits do not follow), `+` is a space, any
other byte stands for itself. -/
def QueryUnescape : Bytes → Option Bytes
  | [] => some []
  | c :: rest =>
    if c = 37 then
      match rest with
      | h :: l :: rest2 =>
        if ishex h && ishex l then
          (QueryUnescape rest2).map (fun t => (unhex h * 16 + unhex l) :: t)
        else none
      | _ => none
    else if c = 43 then (QueryUnescape rest).map (fun t => 32 :: t)
    else (QueryUnescape rest).map (fun t => c :: t)

/-- The type `url.Values` (`map[string][]string`), kept as a list of entries in
ascending key order, the order in which `Encode` walks the map. -/
abbrev Values := List (Bytes × List Bytes)

/-- Go string comparison `a < b` on bytes. -/
def bytesLt : Bytes → Bytes → Bool
  | [], [] => false
  | [], _ :: _ => true
  | _ :: _, [] => false
  | a :: as, b :: bs => if a < b then true else if b < a then false else bytesLt as bs

/-- The method `Values.Set`: `v[key] = []string\x7bvalue\x7d`. -/
def Values.Set (v : Values) (key value : Bytes) : Values :=
  match v with
  | [] => [(key, [value])]
  | (k, vs) :: rest =>
    if key = k then (key, [value]) :: rest
    else if bytesLt key k then (key, [value]) :: (k, vs) :: rest
    else (k, vs) :: Values.Set rest key value

/-- The method `Values.Add`: `v[key] = append(v[key], value)`. -/
def Values.Add (v : Values) (key value : Bytes) : Values :=
  match v with
  | [] => [(key, [value])]
  | (k, vs) :: rest =>
    if key = k then (k, vs ++ [value]) :: rest
    else if bytesLt key k then (key, [value]) :: (k, vs) :: rest
    else (k, vs) :: Values.Add rest key value

/-- The method `Values.Encode`: for the keys in ascending order and each of
their values, `QueryEscape(key) = QueryEscape(value)`, joined by `&`. -/
def Values.Encode (v : Values) : Bytes :=
  List.intercalate [38]
    (v.flatMap (fun kv => kv.2.map (fun x => QueryEscape kv.1 ++ [61] ++ QueryEscape x)))

/-- The function `strings.Cut(s, sep)` for a one-byte separator: the bytes
before the first separator and those after it (all of `s` and nothing when the
separator does not occur). -/
def cut (sep : Nat) : Bytes → Bytes × Bytes
  | [] => ([], [])
  | c :: rest =>
    if c = sep then ([], rest)
    else ((c :: (cut sep rest).1), (cut sep rest).2)

/-- The pieces the loop of `parseQuery` visits: the query cut at every `&`. -/
def pieces : Bytes → List Bytes
  | [] => [[]]
  | c :: rest =>
    if c = 38 then [] :: pieces rest
    else
      match pieces rest with
      | [] => [[c]]
      | p :: ps => (c :: p) :: ps

/-- One turn of the loop of `parseQuery`: a piece with a semicolon is an error,
an empty piece is skipped, otherwise the piece is cut at its first `=`, both
parts are unescaped and the value is appended under the key; the first
unescaping error is kept.  (Older Go releases treat a semicolon as a second
separator instead; the two agree on queries without semicolon.) -/
def parsePiece (acc : Values × Option GoError) (piece : Bytes) : Values × Option GoError :=
  if 59 ∈ piece then (acc.1, some (Errorf "invalid semicolon separator in query"))
  else if piece = [] then acc
  else
    match QueryUnescape (cut 61 piece).1 with
    | none => (acc.1, if acc.2 = none then some (Errorf "invalid URL escape") else acc.2)
    | some key =>
      match QueryUnescape (cut 61 piece).2 with
      | none => (acc.1, if acc.2 = none then some (Errorf "invalid URL escape") else acc.2)
      | some value => (acc.1.Add key value, acc.2)

/-- The function `url.ParseQuery`: the values found and the first error. -/
def ParseQuery (query : Bytes) : Values × Option GoError :=
  (pieces query).foldl parsePiece ([], none)

/-! ## The HTTP client wrapper -/

/-- An HTTP request as the API functions see it: method, endpoint (the path
below the API root), `URL.RawQuery` and the JSON body (`none` for a `nil`
body). -/
structure Request where
  method : String
  endpoint : String
  rawQuery : Bytes
  body : Option JSON

/-- The method `URL.Query()`: `ParseQuery(u.RawQuery)` with the error dropped. -/
def Request.Query (req : Request) : Values := (ParseQuery req.rawQuery).1

/-- Modelled from the spec: the type `Client` lives in a file outside the given
sources; the spec describes it as the HTTP client wrapper that builds requests
and parses JSON responses into destination structs.  The remote service and the
wrapper are parameters: `serverQuery` is the query string the wrapper puts on
every request it builds (that of the configured server URL, empty when there
is none), `requestError` says for which arguments building a request fails,
the three `send` fields give what `SendAndParse` stores in its destination and
returns, for a `*ForemanOrganization` destination, a `*QueryResponse`
destination and a `nil` destination. -/
structure Client where
  serverQuery : String
  requestError : String → String → Option JSON → Option GoError
  sendOrganization : Request → ForemanOrganization × Option GoError
  sendQuery : Request → QueryResponse × Option GoError
  sendNil : Request → Option GoError

/-- Modelled from the spec: `Client.NewRequest(method, endpoint, body)` builds
the request for that method, endpoint and body, or fails; the query string
the request starts with is the client's `serverQuery`. -/
def Client.NewRequest (c : Client) (method endpoint : String) (body : Option JSON) :
    Except GoError Request :=
  match c.requestError method endpoint body with
  | some err => .error err
  | none =>
    .ok { method := method, endpoint := endpoint, rawQuery := utf8 c.serverQuery,
          body := body }

/-- The result of a function that may send requests: its Go result and the
requests handed to `SendAndParse`, in order. -/
structure Traced (α : Type) where
  result : α
  sent : List Request

/-- The constant `http.MethodGet`. -/
def MethodGet : String := "GET"

/-- The constant `http.MethodPost`. -/
def MethodPost : String := "POST"

/-- The constant `http.MethodPut`. -/
def MethodPut : String := "PUT"

/-- The constant `http.MethodDelete`. -/
def MethodDelete : String := "DELETE"

/-! ## organization.go -/

/-- The constant `OrganizationEndpointPrefix` of organization.go. -/
def OrganizationEndpointPrefix : String := "organizations"

/-- `CreateOrganization` of organization.go. -/
def CreateOrganization (c : Client) (e : ForemanOrganization) :
    Traced (Option ForemanOrganization × Option GoError) :=
  let reqEndpoint := "/" ++ OrganizationEndpointPrefix
  match jsonMarshal e with
  | .error jsonEncErr => ⟨(none, some jsonEncErr), []⟩
  | .ok organizationJSONBytes =>
    match c.NewRequest MethodPost reqEndpoint (some organizationJSONBytes) with
    | .error reqErr => ⟨(none, some reqErr), []⟩
    | .ok req =>
      match c.sendOrganization req with
      | (_, some sendErr) => ⟨(none, some sendErr), [req]⟩
      | (createdOrganization, none) => ⟨(some createdOrganization, none), [req]⟩

/-- `ReadOrganization` of organization.go. -/
def ReadOrganization (c : Client) (id : Int) :
    Traced (Option ForemanOrganization × Option GoError) :=
  let reqEndpoint := "/" ++ OrganizationEndpointPrefix ++ "/" ++ Itoa id
  match c.NewRequest MethodGet reqEndpoint none with
  | .error reqErr => ⟨(none, some reqErr), []⟩
  | .ok req =>
    match c.sendOrganization req with
    | (_, some sendErr) => ⟨(none, some sendErr), [req]⟩
    | (readOrganization, none) => ⟨(some readOrganization, none), [req]⟩

/-- `UpdateOrganization` of organization.go. -/
def UpdateOrganization (c : Client) (e : ForemanOrganization) :
    Traced (Option ForemanOrganization × Option GoError) :=
  let reqEndpoint := "/" ++ OrganizationEndpointPrefix ++ "/" ++ Itoa e.Id
  match jsonMarshal e with
  | .error jsonEncErr => ⟨(none, some jsonEncErr), []⟩
  | .ok organizationJSONBytes =>
    match c.NewRequest MethodPut reqEndpoint (some organizationJSONBytes) with
    | .error reqErr => ⟨(none, some reqErr), []⟩
    | .ok req =>
      match c.sendOrganization req with
      | (_, some sendErr) => ⟨(none, some sendErr), [req]⟩
      | (updatedOrganization, none) => ⟨(some updatedOrganization, none), [req]⟩

/-- `DeleteOrganization` of organization.go. -/
def DeleteOrganization (c : Client) (id : Int) : Traced (Option GoError) :=
  let reqEndpoint := "/" ++ OrganizationEndpointPrefix ++ "/" ++ Itoa id
  match c.NewRequest MethodDelete reqEndpoint none with
  | .error reqErr => ⟨some reqErr, []⟩
  | .ok req => ⟨c.sendNil req, [req]⟩

/-- `QueryOrganization` of organization.go. -/
def QueryOrganization (c : Client) (e : ForemanOrganization) :
    Traced (QueryResponse × Option GoError) :=
  let queryResponse : QueryResponse := {}
  let reqEndpoint := "/" ++ OrganizationEndpointPrefix
  match c.NewRequest MethodGet reqEndpoint none with
  | .error reqErr => ⟨(queryResponse, some reqErr), []⟩
  | .ok req =>
    let reqQuery := req.Query
    let name := "\"" ++ e.Name ++ "\""
    let reqQuery := reqQuery.Set (utf8 "search") (utf8 ("name=" ++ name))
    let req := { req with rawQuery := reqQuery.Encode }
    match c.sendQuery req with
    | (queryResponse, some sendErr) => ⟨(queryResponse, some sendErr), [req]⟩
    | (queryResponse, none) =>
      match jsonMarshalResults queryResponse.Results with
      | .error jsonEncErr => ⟨(queryResponse, some jsonEncErr), [req]⟩
      | .ok resultsBytes =>
        match jsonUnmarshalOrganizations resultsBytes with
        | .error jsonDecErr => ⟨(queryResponse, some jsonDecErr), [req]⟩
        | .ok results =>
          let iArr := results.map Iface.organization
          ⟨({ queryResponse with Results := iArr }, none), [req]⟩

/-! ## resource_foreman_organization.go -/

/-- The part of `schema.ResourceData` the organization code touches: the
resource id (`d.Id()`, `d.SetId`) and the attribute `name` (`d.Set("name", _)`). -/
structure ResourceData where
  id : String
  name : String
deriving DecidableEq, Repr

/-- How a lifecycle callback ends: it returns its `error` and leaves the
resource data in some state, or it panics. -/
inductive CallbackResult where
  | returned (err : Option GoError) (d : ResourceData)
  | panicked
deriving DecidableEq, Repr

/-- `buildForemanOrganization` of resource_foreman_organization.go.  The helper
`buildForemanObject`, which reads the base attributes out of the resource data,
is defined outside the given sources and is a parameter. -/
def buildForemanOrganization (buildForemanObject : ResourceData → ForemanObject)
    (d : ResourceData) : ForemanOrganization :=
  let organization : ForemanOrganization := {}
  let obj := buildForemanObject d
  { organization with toForemanObject := obj }

/-- `setResourceDataFromForemanOrganization` of resource_foreman_organization.go. -/
def setResourceDataFromForemanOrganization (d : ResourceData) (fe : ForemanOrganization) :
    ResourceData :=
  let d := { d with id := Itoa fe.Id }
  { d with name := fe.Name }

/-- `resourceForemanOrganizationCreate` of resource_foreman_organization.go. -/
def resourceForemanOrganizationCreate (_c : Client) (d : ResourceData) :
    Traced CallbackResult :=
  ⟨.returned none d, []⟩

/-- `resourceForemanOrganizationRead` of resource_foreman_organization.go.
Dereferencing a `nil` organization would panic. -/
def resourceForemanOrganizationRead (c : Client)
    (buildForemanObject : ResourceData → ForemanObject) (d : ResourceData) :
    Traced CallbackResult :=
  let e := buildForemanOrganization buildForemanObject d
  let r := ReadOrganization c e.Id
  match r.result with
  | (_, some readErr) => ⟨.returned (some readErr) d, r.sent⟩
  | (none, none) => ⟨.panicked, r.sent⟩
  | (some readOrganization, none) =>
    ⟨.returned none (setResourceDataFromForemanOrganization d readOrganization), r.sent⟩

/-- `resourceForemanOrganizationUpdate` of resource_foreman_organization.go. -/
def resourceForemanOrganizationUpdate (_c : Client) (d : ResourceData) :
    Traced CallbackResult :=
  ⟨.returned none d, []⟩

/-- `resourceForemanOrganizationDelete` of resource_foreman_organization.go. -/
def resourceForemanOrganizationDelete (_c : Client) (d : ResourceData) :
    Traced CallbackResult :=
  ⟨.returned none d, []⟩

/-! ## data_source_foreman_organization.go -/

/-- The text the verb `%T` prints for an element of `Results`. -/
def Iface.typeName : Iface → String
  | .organization _ => "api.ForemanOrganization"
  | .generic .null => "<nil>"
  | .generic (.bool _) => "bool"
  | .generic (.number _) => "float64"
  | .generic (.fraction _) => "float64"
  | .generic (.str _) => "string"
  | .generic (.arr _) => "[]interface \x7b\x7d"
  | .generic (.obj _) => "map[string]interface \x7b\x7d"

/-- The type assertion `x.(api.ForemanOrganization)` in its two-result form. -/
def Iface.assertOrganization : Iface → Option ForemanOrganization
  | .organization o => some o
  | .generic _ => none

/-- `dataSourceForemanOrganizationRead` of data_source_foreman_organization.go.
The index expression `queryResponse.Results[0]` panics on an empty list. -/
def dataSourceForemanOrganizationRead (c : Client)
    (buildForemanObject : ResourceData → ForemanObject) (d : ResourceData) :
    Traced CallbackResult :=
  let e := buildForemanOrganization buildForemanObject d
  let q := QueryOrganization c e
  match q.result with
  | (_, some queryErr) => ⟨.returned (some queryErr) d, q.sent⟩
  | (queryResponse, none) =>
    if queryResponse.Subtotal = 0 then
      ⟨.returned (some (Errorf "Data source organization returned no results")) d, q.sent⟩
    else if queryResponse.Subtotal > 1 then
      ⟨.returned (some (Errorf "Data source organization returned more than 1 result")) d,
        q.sent⟩
    else
      match queryResponse.Results with
      | [] => ⟨.panicked, q.sent⟩
      | first :: _ =>
        match first.assertOrganization with
        | none =>
          ⟨.returned (some (Errorf ("Data source results contain unexpected type. Expected " ++
            "[api.ForemanOrganization], got [" ++ first.typeName ++ "]"))) d, q.sent⟩
        | some queryOrganization =>
          ⟨.returned none (setResourceDataFromForemanOrganization d queryOrganization), q.sent⟩

/-! ## Sample clients and data, used to instantiate the theorems -/

/-- The body `json.Marshal` gives for an organization. -/
def bodyOf (e : ForemanOrganization) : JSON :=
  .obj [("id", .num e.Id), ("name", .str e.Name)]

/-- The member of a JSON object stored under a key, if any. -/
def JSON.member (key : String) : JSON → Option JSON
  | .obj members => (members.find? (fun kv => kv.1 = key)).map (fun kv => kv.2)
  | _ => none

/-- A remote service that answers every request: it returns the organization 1
named production, and a query envelope with that single record. -/
def okClient : Client where
  serverQuery := ""
  requestError := fun _ _ _ => none
  sendOrganization := fun _ => (⟨⟨1, "production"⟩⟩, none)
  sendQuery := fun _ =>
    (⟨1, [.generic (.obj [("id", .number 1), ("name", .str "production")])]⟩, none)
  sendNil := fun _ => none

/-- A client for which no request can be built. -/
def refusingClient : Client where
  serverQuery := ""
  requestError := fun _ _ _ => some ⟨"invalid request"⟩
  sendOrganization := fun _ => ({}, none)
  sendQuery := fun _ => ({}, none)
  sendNil := fun _ => none

/-- A client whose every exchange with the remote service fails. -/
def failingClient : Client where
  serverQuery := ""
  requestError := fun _ _ _ => none
  sendOrganization := fun _ => ({}, some ⟨"connection refused"⟩)
  sendQuery := fun _ => ({}, some ⟨"connection refused"⟩)
  sendNil := fun _ => some ⟨"connection refused"⟩

/-- A remote service that answers a query with subtotal 0 and no record. -/
def emptyClient : Client where
  serverQuery := ""
  requestError := fun _ _ _ => none
  sendOrganization := fun _ => ({}, none)
  sendQuery := fun _ => (⟨0, []⟩, none)
  sendNil := fun _ => none

/-- A remote service that answers a query with subtotal 2 and two records. -/
def twoClient : Client where
  serverQuery := ""
  requestError := fun _ _ _ => none
  sendOrganization := fun _ => ({}, none)
  sendQuery := fun _ =>
    (⟨2, [.generic (.obj [("id", .number 1), ("name", .str "production")]),
          .generic (.obj [("id", .number 2), ("name", .str "production")])]⟩, none)
  sendNil := fun _ => none

/-- A remote service whose query envelope announces one match and lists none. -/
def shortClient : Client where
  serverQuery := ""
  requestError := fun _ _ _ => none
  sendOrganization := fun _ => ({}, none)
  sendQuery := fun _ => (⟨1, []⟩, none)
  sendNil := fun _ => none

/-- A remote service whose single record has an id one above the largest `int`. -/
def hugeIdClient : Client where
  serverQuery := ""
  requestError := fun _ _ _ => none
  sendOrganization := fun _ => ({}, none)
  sendQuery := fun _ =>
    (⟨1, [.generic (.obj [("id", .number 9223372036854775808),
      ("name", .str "production")])]⟩, none)
  sendNil := fun _ => none

/-- A reading of the base attributes that takes the name from the resource data
and leaves the id at 5. -/
def sampleBuild (d : ResourceData) : ForemanObject := ⟨5, d.name⟩

/-- Resource data of a data source before its first read. -/
def sampleData : ResourceData := ⟨"", "production"⟩

/-- A remote service whose single record has the id `2^60`. -/
def bigIdClient : Client where
  serverQuery := ""
  requestError := fun _ _ _ => none
  sendOrganization := fun _ => ({}, none)
  sendQuery := fun _ =>
    (⟨1, [.generic (.obj [("id", .number 1152921504606846976),
      ("name", .str "production")])]⟩, none)
  sendNil := fun _ => none

/-- A client whose server URL carries the query string `foo=bar`. -/
def taggedClient : Client where
  serverQuery := "foo=bar"
  requestError := fun _ _ _ => none
  sendOrganization := fun _ => ({}, none)
  sendQuery := fun _ => ({}, none)
  sendNil := fun _ => none

/-- The method `Values.Get` in its full form `v[key]`: the values stored under
a key, none when the key is absent. -/
def Values.Get (v : Values) (key : Bytes) : List Bytes :=
  match v with
  | [] => []
  | (k, vs) :: rest => if k = key then vs else Values.Get rest key

/-- The entries of a `Values` are in strictly ascending key order. -/
def Values.Sorted (v : Values) : Prop :=
  v.Pairwise (fun p q => bytesLt p.1 q.1 = true)

/-- Every entry of a `Values` has at least one value, and keys and values are
byte strings (every element below 256). -/
def Values.Proper (v : Values) : Prop :=
  ∀ p ∈ v, p.2 ≠ [] ∧ (∀ b ∈ p.1, b < 256) ∧ ∀ x ∈ p.2, ∀ b ∈ x, b < 256

/-- The request `QueryOrganization` hands to `SendAndParse`: a `GET` of
`/organizations` whose raw query is the encoding of the parameters the built
request had, with `search` set to the filter. -/
def searchRequest (c : Client) (e : ForemanOrganization) : Request :=
  ⟨"GET", "/organizations",
    Values.Encode (Values.Set (ParseQuery (utf8 c.serverQuery)).1 (utf8 "search")
      (utf8 ("name=\"" ++ e.Name ++ "\""))), none⟩

/-- A generic record carries the integer `id` and the string `name`: its members
are `"id": id` and `"name": name`; it has no further members, and any member
whose key equals `id` or `name` up to letter case holds that same value.
(Further fields of the base type, which a further member could meet, are
outside the given sources.) -/
structure Carries (members : List (String × Generic)) (id : Int) (name : String) : Prop where
  id_mem : ("id", Generic.number id) ∈ members
  name_mem : ("name", Generic.str name) ∈ members
  id_only : ∀ kv ∈ members, foldName kv.1 = "id" → kv.2 = Generic.number id
  name_only : ∀ kv ∈ members, foldName kv.1 = "name" → kv.2 = Generic.str name
  no_other : ∀ kv ∈ members, foldName kv.1 = "id" ∨ foldName kv.1 = "name"

/-! ## Shape of the API functions -/

theorem endpoint_root : "/" ++ OrganizationEndpointPrefix = "/organizations" := by decide

theorem endpoint_id (id : Int) :
    "/" ++ OrganizationEndpointPrefix ++ "/" ++ Itoa id = "/organizations/" ++ Itoa id := by
  have h : "/" ++ OrganizationEndpointPrefix ++ "/" = "/organizations/" := by decide
  rw [h]

theorem CreateOrganization_eq (c : Client) (e : ForemanOrganization) :
    CreateOrganization c e =
      match c.requestError "POST" "/organizations" (some (bodyOf e)) with
      | some reqErr => ⟨(none, some reqErr), []⟩
      | none =>
        match (c.sendOrganization ⟨"POST", "/organizations", utf8 c.serverQuery, some (bodyOf e)⟩).2 with
        | some sendErr =>
          ⟨(none, some sendErr), [⟨"POST", "/organizations", utf8 c.serverQuery, some (bodyOf e)⟩]⟩
        | none =>
          ⟨(some (c.sendOrganization ⟨"POST", "/organizations", utf8 c.serverQuery, some (bodyOf e)⟩).1, none),
            [⟨"POST", "/organizations", utf8 c.serverQuery, some (bodyOf e)⟩]⟩ := by
  unfold CreateOrganization
  simp only [jsonMarshal, endpoint_root, MethodPost, Client.NewRequest, bodyOf]
  cases h : c.requestError "POST" "/organizations"
      (some (.obj [("id", .num e.Id), ("name", .str e.Name)])) with
  | some err => rfl
  | none =>
    simp only []
    cases hs : c.sendOrganization ⟨"POST", "/organizations", utf8 c.serverQuery,
      some (.obj [("id", .num e.Id), ("name", .str e.Name)])⟩ with
    | mk o serr => cases serr <;> rfl

theorem UpdateOrganization_eq (c : Client) (e : ForemanOrganization) :
    UpdateOrganization c e =
      match c.requestError "PUT" ("/organizations/" ++ Itoa e.Id) (some (bodyOf e)) with
      | some reqErr => ⟨(none, some reqErr), []⟩
      | none =>
        match (c.sendOrganization
          ⟨"PUT", "/organizations/" ++ Itoa e.Id, utf8 c.serverQuery, some (bodyOf e)⟩).2 with
        | some sendErr =>
          ⟨(none, some sendErr), [⟨"PUT", "/organizations/" ++ Itoa e.Id, utf8 c.serverQuery, some (bodyOf e)⟩]⟩
        | none =>
          ⟨(some (c.sendOrganization
              ⟨"PUT", "/organizations/" ++ Itoa e.Id, utf8 c.serverQuery, some (bodyOf e)⟩).1, none),
            [⟨"PUT", "/organizations/" ++ Itoa e.Id, utf8 c.serverQuery, some (bodyOf e)⟩]⟩ := by
  unfold UpdateOrganization
  simp only [jsonMarshal, endpoint_id, MethodPut, Client.NewRequest, bodyOf]
  cases h : c.requestError "PUT" ("/organizations/" ++ Itoa e.Id)
      (some (.obj [("id", .num e.Id), ("name", .str e.Name)])) with
  | some err => rfl
  | none =>
    simp only []
    cases hs : c.sendOrganization ⟨"PUT", "/organizations/" ++ Itoa e.Id, utf8 c.serverQuery,
      some (.obj [("id", .num e.Id), ("name", .str e.Name)])⟩ with
    | mk o serr => cases serr <;> rfl

theorem ReadOrganization_eq (c : Client) (id : Int) :
    ReadOrganization c id =
      match c.requestError "GET" ("/organizations/" ++ Itoa id) none with
      | some reqErr => ⟨(none, some reqErr), []⟩
      | none =>
        match (c.sendOrganization ⟨"GET", "/organizations/" ++ Itoa id, utf8 c.serverQuery, none⟩).2 with
        | some sendErr =>
          ⟨(none, some sendErr), [⟨"GET", "/organizations/" ++ Itoa id, utf8 c.serverQuery, none⟩]⟩
        | none =>
          ⟨(some (c.sendOrganization ⟨"GET", "/organizations/" ++ Itoa id, utf8 c.serverQuery, none⟩).1, none),
            [⟨"GET", "/organizations/" ++ Itoa id, utf8 c.serverQuery, none⟩]⟩ := by
  unfold ReadOrganization
  simp only [endpoint_id, MethodGet, Client.NewRequest]
  cases h : c.requestError "GET" ("/organizations/" ++ Itoa id) none with
  | some err => rfl
  | none =>
    simp only []
    cases hs : c.sendOrganization ⟨"GET", "/organizations/" ++ Itoa id, utf8 c.serverQuery, none⟩ with
    | mk o serr => cases serr <;> rfl

theorem DeleteOrganization_eq (c : Client) (id : Int) :
    DeleteOrganization c id =
      match c.requestError "DELETE" ("/organizations/" ++ Itoa id) none with
      | some reqErr => ⟨some reqErr, []⟩
      | none =>
        ⟨c.sendNil ⟨"DELETE", "/organizations/" ++ Itoa id, utf8 c.serverQuery, none⟩,
          [⟨"DELETE", "/organizations/" ++ Itoa id, utf8 c.serverQuery, none⟩]⟩ := by
  unfold DeleteOrganization
  simp only [endpoint_id, MethodDelete, Client.NewRequest]
  cases h : c.requestError "DELETE" ("/organizations/" ++ Itoa id) none with
  | some err => rfl
  | none => rfl

theorem CreateOrganization_sent_le (c : Client) (e : ForemanOrganization) :
    (CreateOrganization c e).sent.length ≤ 1 := by
  rw [CreateOrganization_eq]
  cases h : c.requestError "POST" "/organizations" (some (bodyOf e)) with
  | some err => simp
  | none =>
    cases hs : (c.sendOrganization ⟨"POST", "/organizations", utf8 c.serverQuery, some (bodyOf e)⟩).2 <;>
      simp [hs]

theorem ReadOrganization_sent_le (c : Client) (id : Int) :
    (ReadOrganization c id).sent.length ≤ 1 := by
  rw [ReadOrganization_eq]
  cases h : c.requestError "GET" ("/organizations/" ++ Itoa id) none with
  | some err => simp
  | none =>
    cases hs : (c.sendOrganization ⟨"GET", "/organizations/" ++ Itoa id, utf8 c.serverQuery, none⟩).2 <;>
      simp [hs]

theorem UpdateOrganization_sent_le (c : Client) (e : ForemanOrganization) :
    (UpdateOrganization c e).sent.length ≤ 1 := by
  rw [UpdateOrganization_eq]
  cases h : c.requestError "PUT" ("/organizations/" ++ Itoa e.Id) (some (bodyOf e)) with
  | some err => simp
  | none =>
    cases hs : (c.sendOrganization
      ⟨"PUT", "/organizations/" ++ Itoa e.Id, utf8 c.serverQuery, some (bodyOf e)⟩).2 <;> simp [hs]

theorem DeleteOrganization_sent_le (c : Client) (id : Int) :
    (DeleteOrganization c id).sent.length ≤ 1 := by
  rw [DeleteOrganization_eq]
  cases h : c.requestError "DELETE" ("/organizations/" ++ Itoa id) none with
  | some err => simp
  | none => simp

theorem filter_text (name : String) :
    "name=" ++ ("\"" ++ name ++ "\"") = "name=\"" ++ name ++ "\"" := by
  have h : "name=" ++ "\"" = "name=\"" := by decide
  rw [← h, String.append_assoc, String.append_assoc, String.append_assoc]

theorem QueryOrganization_eq (c : Client) (e : ForemanOrganization) :
    QueryOrganization c e =
      match c.requestError "GET" "/organizations" none with
      | some reqErr => ⟨({}, some reqErr), []⟩
      | none =>
        match (c.sendQuery (searchRequest c e)).2 with
        | some sendErr =>
          ⟨((c.sendQuery (searchRequest c e)).1, some sendErr), [searchRequest c e]⟩
        | none =>
          match jsonUnmarshalOrganizations
              ((c.sendQuery (searchRequest c e)).1.Results.map Iface.toJSON) with
          | .error jsonDecErr =>
            ⟨((c.sendQuery (searchRequest c e)).1, some jsonDecErr), [searchRequest c e]⟩
          | .ok results =>
            ⟨(⟨(c.sendQuery (searchRequest c e)).1.Subtotal, results.map Iface.organization⟩,
              none), [searchRequest c e]⟩ := by
  unfold QueryOrganization
  simp only [endpoint_root, MethodGet, Client.NewRequest, jsonMarshalResults]
  cases h : c.requestError "GET" "/organizations" none with
  | some err => rfl
  | none =>
    simp only [filter_text, Request.Query]
    change (match c.sendQuery (searchRequest c e) with
      | (queryResponse, some sendErr) => _
      | (queryResponse, none) => _) = _
    cases hs : c.sendQuery (searchRequest c e) with
    | mk q serr =>
      cases serr with
      | some x => rfl
      | none =>
        simp only []
        cases hd : jsonUnmarshalOrganizations (q.Results.map Iface.toJSON) <;> rfl

/-! ## The CRUD functions: requests sent, errors, bodies -/

/-- C4: each of `CreateOrganization`, `ReadOrganization`, `UpdateOrganization`
and `DeleteOrganization` sends at most one request, exactly one when the request
can be built, and every request sent is `POST /organizations`,
`GET /organizations/<id>`, `PUT /organizations/<e.Id>`, `DELETE /organizations/<id>`
respectively, the id in decimal (`Itoa`), for every integer id. -/
theorem crud_one_request (c : Client) (e : ForemanOrganization) (id : Int) :
    ((CreateOrganization c e).sent.length ≤ 1 ∧
      (c.requestError "POST" "/organizations" (some (bodyOf e)) = none →
        (CreateOrganization c e).sent.length = 1) ∧
      ∀ req ∈ (CreateOrganization c e).sent,
        req.method = "POST" ∧ req.endpoint = "/organizations") ∧
    ((ReadOrganization c id).sent.length ≤ 1 ∧
      (c.requestError "GET" ("/organizations/" ++ Itoa id) none = none →
        (ReadOrganization c id).sent.length = 1) ∧
      ∀ req ∈ (ReadOrganization c id).sent,
        req.method = "GET" ∧ req.endpoint = "/organizations/" ++ Itoa id) ∧
    ((UpdateOrganization c e).sent.length ≤ 1 ∧
      (c.requestError "PUT" ("/organizations/" ++ Itoa e.Id) (some (bodyOf e)) = none →
        (UpdateOrganization c e).sent.length = 1) ∧
      ∀ req ∈ (UpdateOrganization c e).sent,
        req.method = "PUT" ∧ req.endpoint = "/organizations/" ++ Itoa e.Id) ∧
    ((DeleteOrganization c id).sent.length ≤ 1 ∧
      (c.requestError "DELETE" ("/organizations/" ++ Itoa id) none = none →
        (DeleteOrganization c id).sent.length = 1) ∧
      ∀ req ∈ (DeleteOrganization c id).sent,
        req.method = "DELETE" ∧ req.endpoint = "/organizations/" ++ Itoa id) := by
  refine ⟨?_, ?_, ?_, ?_⟩
  · rw [CreateOrganization_eq]
    cases h : c.requestError "POST" "/organizations" (some (bodyOf e)) with
    | some err => simp
    | none =>
      cases hs : (c.sendOrganization ⟨"POST", "/organizations", utf8 c.serverQuery, some (bodyOf e)⟩).2 <;>
        simp [hs]
  · rw [ReadOrganization_eq]
    cases h : c.requestError "GET" ("/organizations/" ++ Itoa id) none with
    | some err => simp
    | none =>
      cases hs : (c.sendOrganization ⟨"GET", "/organizations/" ++ Itoa id, utf8 c.serverQuery, none⟩).2 <;>
        simp [hs]
  · rw [UpdateOrganization_eq]
    cases h : c.requestError "PUT" ("/organizations/" ++ Itoa e.Id) (some (bodyOf e)) with
    | some err => simp
    | none =>
      cases hs : (c.sendOrganization
        ⟨"PUT", "/organizations/" ++ Itoa e.Id, utf8 c.serverQuery, some (bodyOf e)⟩).2 <;> simp [hs]
  · rw [DeleteOrganization_eq]
    cases h : c.requestError "DELETE" ("/organizations/" ++ Itoa id) none with
    | some err => simp
    | none => simp

/-- Instance of C4: against a service that answers, the four functions called
for the organization 7 (resp. the id minus 42) each send one request, and the
paths hold the id in decimal, with its sign. -/
theorem crud_one_request_witness :
    ((CreateOrganization okClient ⟨⟨7, "production"⟩⟩).sent.length = 1 ∧
      ∀ req ∈ (CreateOrganization okClient ⟨⟨7, "production"⟩⟩).sent,
        req.method = "POST" ∧ req.endpoint = "/organizations") ∧
    ((ReadOrganization okClient (-42)).sent.length = 1 ∧
      ∀ req ∈ (ReadOrganization okClient (-42)).sent,
        req.method = "GET" ∧ req.endpoint = "/organizations/-42") ∧
    ((UpdateOrganization okClient ⟨⟨7, "production"⟩⟩).sent.length = 1 ∧
      ∀ req ∈ (UpdateOrganization okClient ⟨⟨7, "production"⟩⟩).sent,
        req.method = "PUT" ∧ req.endpoint = "/organizations/7") ∧
    ((DeleteOrganization okClient (-42)).sent.length = 1 ∧
      ∀ req ∈ (DeleteOrganization okClient (-42)).sent,
        req.method = "DELETE" ∧ req.endpoint = "/organizations/-42") :=
  have h := crud_one_request okClient ⟨⟨7, "production"⟩⟩ (-42)
  ⟨⟨h.1.2.1 rfl, h.1.2.2⟩, ⟨h.2.1.2.1 rfl, h.2.1.2.2⟩, ⟨h.2.2.1.2.1 rfl, h.2.2.1.2.2⟩,
    ⟨h.2.2.2.2.1 rfl, h.2.2.2.2.2⟩⟩

/-- C7: in `CreateOrganization`, `ReadOrganization`, `UpdateOrganization` and
`DeleteOrganization` a failure ends the call and is handed back unchanged: when
the request cannot be built the function returns that error, no organization,
and sends nothing; when `SendAndParse` fails it returns that error and no
organization after the one request; an organization is returned only together
with a `nil` error; and no call sends more than one request. -/
theorem crud_errors_propagate (c : Client) (e : ForemanOrganization) (id : Int)
    (err : GoError) :
    ((c.requestError "POST" "/organizations" (some (bodyOf e)) = some err →
        CreateOrganization c e = ⟨(none, some err), []⟩) ∧
      (c.requestError "POST" "/organizations" (some (bodyOf e)) = none →
        (c.sendOrganization ⟨"POST", "/organizations", utf8 c.serverQuery, some (bodyOf e)⟩).2 = some err →
        CreateOrganization c e =
          ⟨(none, some err), [⟨"POST", "/organizations", utf8 c.serverQuery, some (bodyOf e)⟩]⟩) ∧
      (∀ o, (CreateOrganization c e).result.1 = some o →
        (CreateOrganization c e).result.2 = none) ∧
      (CreateOrganization c e).sent.length ≤ 1) ∧
    ((c.requestError "GET" ("/organizations/" ++ Itoa id) none = some err →
        ReadOrganization c id = ⟨(none, some err), []⟩) ∧
      (c.requestError "GET" ("/organizations/" ++ Itoa id) none = none →
        (c.sendOrganization ⟨"GET", "/organizations/" ++ Itoa id, utf8 c.serverQuery, none⟩).2 = some err →
        ReadOrganization c id =
          ⟨(none, some err), [⟨"GET", "/organizations/" ++ Itoa id, utf8 c.serverQuery, none⟩]⟩) ∧
      (∀ o, (ReadOrganization c id).result.1 = some o →
        (ReadOrganization c id).result.2 = none) ∧
      (ReadOrganization c id).sent.length ≤ 1) ∧
    ((c.requestError "PUT" ("/organizations/" ++ Itoa e.Id) (some (bodyOf e)) = some err →
        UpdateOrganization c e = ⟨(none, some err), []⟩) ∧
      (c.requestError "PUT" ("/organizations/" ++ Itoa e.Id) (some (bodyOf e)) = none →
        (c.sendOrganization
          ⟨"PUT", "/organizations/" ++ Itoa e.Id, utf8 c.serverQuery, some (bodyOf e)⟩).2 = some err →
        UpdateOrganization c e =
          ⟨(none, some err),
            [⟨"PUT", "/organizations/" ++ Itoa e.Id, utf8 c.serverQuery, some (bodyOf e)⟩]⟩) ∧
      (∀ o, (UpdateOrganization c e).result.1 = some o →
        (UpdateOrganization c e).result.2 = none) ∧
      (UpdateOrganization c e).sent.length ≤ 1) ∧
    ((c.requestError "DELETE" ("/organizations/" ++ Itoa id) none = some err →
        DeleteOrganization c id = ⟨some err, []⟩) ∧
      (c.requestError "DELETE" ("/organizations/" ++ Itoa id) none = none →
        c.sendNil ⟨"DELETE", "/organizations/" ++ Itoa id, utf8 c.serverQuery, none⟩ = some err →
        DeleteOrganization c id =
          ⟨some err, [⟨"DELETE", "/organizations/" ++ Itoa id, utf8 c.serverQuery, none⟩]⟩) ∧
      (DeleteOrganization c id).sent.length ≤ 1) := by
  refine ⟨⟨?_, ?_, ?_, ?_⟩, ⟨?_, ?_, ?_, ?_⟩, ⟨?_, ?_, ?_, ?_⟩, ⟨?_, ?_, ?_⟩⟩
  · intro h; rw [CreateOrganization_eq, h]
  · intro h hs; rw [CreateOrganization_eq, h]; simp only [hs]
  · intro o; rw [CreateOrganization_eq]
    cases c.requestError "POST" "/organizations" (some (bodyOf e)) with
    | some x => simp
    | none =>
      cases hs : (c.sendOrganization ⟨"POST", "/organizations", utf8 c.serverQuery, some (bodyOf e)⟩).2 <;>
        simp [hs]
  · exact CreateOrganization_sent_le c e
  · intro h; rw [ReadOrganization_eq, h]
  · intro h hs; rw [ReadOrganization_eq, h]; simp only [hs]
  · intro o; rw [ReadOrganization_eq]
    cases c.requestError "GET" ("/organizations/" ++ Itoa id) none with
    | some x => simp
    | none =>
      cases hs : (c.sendOrganization ⟨"GET", "/organizations/" ++ Itoa id, utf8 c.serverQuery, none⟩).2 <;>
        simp [hs]
  · exact ReadOrganization_sent_le c id
  · intro h; rw [UpdateOrganization_eq, h]
  · intro h hs; rw [UpdateOrganization_eq, h]; simp only [hs]
  · intro o; rw [UpdateOrganization_eq]
    cases c.requestError "PUT" ("/organizations/" ++ Itoa e.Id) (some (bodyOf e)) with
    | some x => simp
    | none =>
      cases hs : (c.sendOrganization
        ⟨"PUT", "/organizations/" ++ Itoa e.Id, utf8 c.serverQuery, some (bodyOf e)⟩).2 <;> simp [hs]
  · exact UpdateOrganization_sent_le c e
  · intro h; rw [DeleteOrganization_eq, h]
  · intro h hs; rw [DeleteOrganization_eq, h]; simp only [hs]
  · exact DeleteOrganization_sent_le c id


/-- Instance of C7: a client that cannot build requests hands back its error
from every function with nothing sent; a client whose exchanges fail hands back
that error after the one request. -/
theorem crud_errors_propagate_witness :
    CreateOrganization refusingClient ⟨⟨7, "production"⟩⟩ =
      ⟨(none, some ⟨"invalid request"⟩), []⟩ ∧
    DeleteOrganization refusingClient 7 = ⟨some ⟨"invalid request"⟩, []⟩ ∧
    ReadOrganization failingClient 7 =
      ⟨(none, some ⟨"connection refused"⟩), [⟨"GET", "/organizations/7", [], none⟩]⟩ ∧
    UpdateOrganization failingClient ⟨⟨7, "production"⟩⟩ =
      ⟨(none, some ⟨"connection refused"⟩),
        [⟨"PUT", "/organizations/7", [], some (bodyOf ⟨⟨7, "production"⟩⟩)⟩]⟩ :=
  ⟨(crud_errors_propagate refusingClient ⟨⟨7, "production"⟩⟩ 7 ⟨"invalid request"⟩).1.1 rfl,
    (crud_errors_propagate refusingClient ⟨⟨7, "production"⟩⟩ 7
      ⟨"invalid request"⟩).2.2.2.1 rfl,
    (crud_errors_propagate failingClient ⟨⟨7, "production"⟩⟩ 7
      ⟨"connection refused"⟩).2.1.2.1 rfl rfl,
    (crud_errors_propagate failingClient ⟨⟨7, "production"⟩⟩ 7
      ⟨"connection refused"⟩).2.2.1.2.1 rfl rfl⟩

/-- C8, as stated, fails: the body `CreateOrganization` posts for the
organization 7 named production has a member `id`. -/
theorem create_body_carries_id :
    ¬ (∀ req ∈ (CreateOrganization okClient ⟨⟨7, "production"⟩⟩).sent,
        ∀ b, req.body = some b → b.member "id" = none) := by
  intro h
  have hb := h ⟨"POST", "/organizations", [], some (bodyOf ⟨⟨7, "production"⟩⟩)⟩
    (by rw [CreateOrganization_eq]; simp [okClient]; rfl) (bodyOf ⟨⟨7, "production"⟩⟩) rfl
  simp [bodyOf, JSON.member] at hb

/-- C8, amended: `CreateOrganization` and `UpdateOrganization` send the same
body for the same organization, the result of `json.Marshal` on the whole
struct, in which the member `id` holds `e.Id` and the member `name` holds
`e.Name`. -/
theorem create_update_same_body (c : Client) (e : ForemanOrganization) :
    ∃ b, jsonMarshal e = .ok b ∧
      b.member "id" = some (.num e.Id) ∧ b.member "name" = some (.str e.Name) ∧
      (∀ req ∈ (CreateOrganization c e).sent, req.body = some b) ∧
      (∀ req ∈ (UpdateOrganization c e).sent, req.body = some b) := by
  refine ⟨bodyOf e, rfl, ?_, ?_, ?_, ?_⟩
  · simp [bodyOf, JSON.member]
  · simp [bodyOf, JSON.member]
  · rw [CreateOrganization_eq]
    cases h : c.requestError "POST" "/organizations" (some (bodyOf e)) with
    | some err => simp
    | none =>
      cases hs : (c.sendOrganization ⟨"POST", "/organizations", utf8 c.serverQuery, some (bodyOf e)⟩).2 <;>
        simp [hs]
  · rw [UpdateOrganization_eq]
    cases h : c.requestError "PUT" ("/organizations/" ++ Itoa e.Id) (some (bodyOf e)) with
    | some err => simp
    | none =>
      cases hs : (c.sendOrganization
        ⟨"PUT", "/organizations/" ++ Itoa e.Id, utf8 c.serverQuery, some (bodyOf e)⟩).2 <;> simp [hs]

/-- Instance of the amended C8 for the organization 7 named production. -/
theorem create_update_same_body_witness :
    ∃ b, jsonMarshal ⟨⟨7, "production"⟩⟩ = .ok b ∧
      b.member "id" = some (.num 7) ∧ b.member "name" = some (.str "production") ∧
      (∀ req ∈ (CreateOrganization okClient ⟨⟨7, "production"⟩⟩).sent, req.body = some b) ∧
      (∀ req ∈ (UpdateOrganization okClient ⟨⟨7, "production"⟩⟩).sent, req.body = some b) :=
  create_update_same_body okClient ⟨⟨7, "production"⟩⟩

/-! ## The resource callbacks -/

theorem resourceRead_eq (c : Client) (bfo : ResourceData → ForemanObject) (d : ResourceData) :
    resourceForemanOrganizationRead c bfo d =
      match (ReadOrganization c (bfo d).Id).result with
      | (_, some readErr) => ⟨.returned (some readErr) d, (ReadOrganization c (bfo d).Id).sent⟩
      | (none, none) => ⟨.panicked, (ReadOrganization c (bfo d).Id).sent⟩
      | (some o, none) =>
        ⟨.returned none ⟨Itoa o.Id, o.Name⟩, (ReadOrganization c (bfo d).Id).sent⟩ := rfl

theorem resourceRead_sent (c : Client) (bfo : ResourceData → ForemanObject)
    (d : ResourceData) :
    (resourceForemanOrganizationRead c bfo d).sent = (ReadOrganization c (bfo d).Id).sent := by
  rw [resourceRead_eq]
  split <;> rfl

/-- C5, as stated, fails: against a service that answers every request,
`resourceForemanOrganizationCreate` does not issue one request. -/
theorem resource_create_sends_nothing :
    ¬ ((resourceForemanOrganizationCreate okClient sampleData).sent.length = 1) := by
  decide

/-- C5, amended: `resourceForemanOrganizationCreate`, `...Update` and `...Delete`
return `nil`, leave the resource data as it was and send no request; only
`resourceForemanOrganizationRead` is bound to the API: it sends what
`ReadOrganization` sends for the id read from the resource data, at most one
request, exactly one when the request can be built, a `GET` of
`/organizations/<id>`. -/
theorem resource_callbacks_binding (c : Client) (bfo : ResourceData → ForemanObject)
    (d : ResourceData) :
    resourceForemanOrganizationCreate c d = ⟨.returned none d, []⟩ ∧
    resourceForemanOrganizationUpdate c d = ⟨.returned none d, []⟩ ∧
    resourceForemanOrganizationDelete c d = ⟨.returned none d, []⟩ ∧
    (resourceForemanOrganizationRead c bfo d).sent = (ReadOrganization c (bfo d).Id).sent ∧
    (resourceForemanOrganizationRead c bfo d).sent.length ≤ 1 ∧
    (c.requestError "GET" ("/organizations/" ++ Itoa (bfo d).Id) none = none →
      (resourceForemanOrganizationRead c bfo d).sent =
        [⟨"GET", "/organizations/" ++ Itoa (bfo d).Id, utf8 c.serverQuery, none⟩]) := by
  refine ⟨rfl, rfl, rfl, resourceRead_sent c bfo d, ?_, ?_⟩
  · rw [resourceRead_sent]; exact ReadOrganization_sent_le c _
  · intro h
    rw [resourceRead_sent, ReadOrganization_eq, h]
    cases hs : (c.sendOrganization
      ⟨"GET", "/organizations/" ++ Itoa (bfo d).Id, utf8 c.serverQuery, none⟩).2 <;> simp [hs]

/-- Instance of the amended C5: with a service that answers, the read callback
sends the single request `GET /organizations/5`. -/
theorem resource_callbacks_binding_witness :
    (resourceForemanOrganizationRead okClient sampleBuild sampleData).sent =
      [⟨"GET", "/organizations/5", [], none⟩] :=
  (resource_callbacks_binding okClient sampleBuild sampleData).2.2.2.2.2 rfl

/-- C6: `resourceForemanOrganizationRead` takes its result from the remote
service alone.  When `ReadOrganization` succeeds with `o` the callback returns
`nil` and the resource data hold the decimal text of `o.Id` and `o.Name`,
whatever they held before; when `ReadOrganization` fails the callback returns
that error and the resource data are as before; and two runs whose resource
data differ only in the stored name, the id read from them being the same, end
alike when the read succeeds. -/
theorem resource_read_source_of_truth (c : Client) (bfo : ResourceData → ForemanObject)
    (d : ResourceData) :
    (∀ o, (ReadOrganization c (buildForemanOrganization bfo d).Id).result = (some o, none) →
      (resourceForemanOrganizationRead c bfo d).result =
        .returned none ⟨Itoa o.Id, o.Name⟩) ∧
    (∀ err, (ReadOrganization c (buildForemanOrganization bfo d).Id).result.2 = some err →
      (resourceForemanOrganizationRead c bfo d).result = .returned (some err) d) ∧
    (∀ name2, (bfo ⟨d.id, name2⟩).Id = (bfo d).Id →
      (ReadOrganization c (buildForemanOrganization bfo d).Id).result.2 = none →
      resourceForemanOrganizationRead c bfo ⟨d.id, name2⟩ =
        resourceForemanOrganizationRead c bfo d) := by
  have hb : (buildForemanOrganization bfo d).Id = (bfo d).Id := rfl
  rw [hb]
  refine ⟨?_, ?_, ?_⟩
  · intro o h
    rw [resourceRead_eq, h]
  · intro err h
    rw [resourceRead_eq]
    cases hr : (ReadOrganization c (bfo d).Id).result with
    | mk o e2 =>
      rw [hr] at h
      simp only at h
      subst h
      cases o <;> rfl
  · intro name2 hid h
    rw [resourceRead_eq, resourceRead_eq, hid]
    cases hr : (ReadOrganization c (bfo d).Id).result with
    | mk o e2 =>
      rw [hr] at h
      simp only at h
      subst h
      cases o <;> rfl

/-- Instance of C6: the service holds organization 1 named production; a read
on resource data that stored another name ends with id 1 and name production, and
so does the read on the data that stored production. -/
theorem resource_read_source_of_truth_witness :
    (resourceForemanOrganizationRead okClient sampleBuild ⟨"", "staging"⟩).result =
        .returned none ⟨"1", "production"⟩ ∧
    resourceForemanOrganizationRead okClient sampleBuild ⟨"", "production"⟩ =
      resourceForemanOrganizationRead okClient sampleBuild ⟨"", "staging"⟩ :=
  ⟨(resource_read_source_of_truth okClient sampleBuild ⟨"", "staging"⟩).1
      ⟨⟨1, "production"⟩⟩ rfl,
    (resource_read_source_of_truth okClient sampleBuild ⟨"", "staging"⟩).2.2
      "production" rfl rfl⟩

/-! ## The data source read -/

theorem dataSourceRead_eq (c : Client) (bfo : ResourceData → ForemanObject)
    (d : ResourceData) (qr : QueryResponse)
    (h : (QueryOrganization c (buildForemanOrganization bfo d)).result = (qr, none)) :
    (dataSourceForemanOrganizationRead c bfo d).result =
      if qr.Subtotal = 0 then
        .returned (some (Errorf "Data source organization returned no results")) d
      else if qr.Subtotal > 1 then
        .returned (some (Errorf "Data source organization returned more than 1 result")) d
      else
        match qr.Results with
        | [] => .panicked
        | first :: _ =>
          match first.assertOrganization with
          | none =>
            .returned (some (Errorf ("Data source results contain unexpected type. Expected " ++
              "[api.ForemanOrganization], got [" ++ first.typeName ++ "]"))) d
          | some o => .returned none ⟨Itoa o.Id, o.Name⟩ := by
  unfold dataSourceForemanOrganizationRead
  simp only [h]
  split
  · rfl
  · split
    · rfl
    · cases qr.Results with
      | nil => rfl
      | cons first rest =>
        simp only []
        cases first.assertOrganization <;> rfl

theorem query_ok_results (c : Client) (e : ForemanOrganization)
    (h : (QueryOrganization c e).result.2 = none) :
    ∃ results : List ForemanOrganization,
      (QueryOrganization c e).result.1.Results = results.map Iface.organization := by
  rw [QueryOrganization_eq] at h ⊢
  cases hr : c.requestError "GET" "/organizations" none with
  | some err => rw [hr] at h; simp at h
  | none =>
    rw [hr] at h
    simp only at h ⊢
    cases hs : (c.sendQuery (searchRequest c e)).2 with
    | some err => rw [hs] at h; simp at h
    | none =>
      rw [hs] at h
      simp only at h ⊢
      cases hd : jsonUnmarshalOrganizations
          ((c.sendQuery (searchRequest c e)).1.Results.map Iface.toJSON) with
      | error err => rw [hd] at h; simp at h
      | ok results => exact ⟨results, rfl⟩

/-- C1: when `QueryOrganization` returns without error,
`dataSourceForemanOrganizationRead` returns an error whose message contains
`no results` if the subtotal is 0 and one whose message contains
`more than 1 result` if the subtotal is 2 or more, and in both cases the
resource data are as before. -/
theorem data_source_needs_single_match (c : Client) (bfo : ResourceData → ForemanObject)
    (d : ResourceData)
    (h : (QueryOrganization c (buildForemanOrganization bfo d)).result.2 = none) :
    ((QueryOrganization c (buildForemanOrganization bfo d)).result.1.Subtotal = 0 →
      ∃ err, (dataSourceForemanOrganizationRead c bfo d).result = .returned (some err) d ∧
        Contains err.msg "no results") ∧
    (2 ≤ (QueryOrganization c (buildForemanOrganization bfo d)).result.1.Subtotal →
      ∃ err, (dataSourceForemanOrganizationRead c bfo d).result = .returned (some err) d ∧
        Contains err.msg "more than 1 result") := by
  cases hq : (QueryOrganization c (buildForemanOrganization bfo d)).result with
  | mk qr qerr =>
    rw [hq] at h
    simp only at h
    subst h
    rw [dataSourceRead_eq c bfo d qr hq]
    refine ⟨?_, ?_⟩
    · intro h0
      simp only at h0
      refine ⟨Errorf "Data source organization returned no results", by simp [h0], ?_⟩
      exact ⟨"Data source organization returned ".data, [], rfl⟩
    · intro h2
      simp only at h2
      have hne : qr.Subtotal ≠ 0 := by omega
      have hgt : qr.Subtotal > 1 := by omega
      refine ⟨Errorf "Data source organization returned more than 1 result",
        by simp [hne, hgt], ?_⟩
      exact ⟨"Data source organization returned ".data, [], rfl⟩

/-- Instance of C1: a service answering subtotal 0 makes the data source read
fail with `no results`, one answering subtotal 2 with `more than 1 result`, the
resource data untouched. -/
theorem data_source_needs_single_match_witness :
    (∃ err, (dataSourceForemanOrganizationRead emptyClient sampleBuild sampleData).result =
        .returned (some err) sampleData ∧ Contains err.msg "no results") ∧
    (∃ err, (dataSourceForemanOrganizationRead twoClient sampleBuild sampleData).result =
        .returned (some err) sampleData ∧ Contains err.msg "more than 1 result") :=
  ⟨(data_source_needs_single_match emptyClient sampleBuild sampleData
      (by rw [QueryOrganization_eq]; rfl)).1 (by rw [QueryOrganization_eq]; rfl),
    (data_source_needs_single_match twoClient sampleBuild sampleData
      (by rw [QueryOrganization_eq]; rfl)).2 (by rw [QueryOrganization_eq]; decide)⟩

/-- C9 fails on the code: a service whose envelope has subtotal 1 (or a negative
subtotal) and an empty result list makes `QueryOrganization` return without
error, and `dataSourceForemanOrganizationRead` then indexes the empty list and
panics. -/
theorem data_source_panics_on_short_results :
    (QueryOrganization shortClient (buildForemanOrganization sampleBuild sampleData)).result.2
        = none ∧
    (dataSourceForemanOrganizationRead shortClient sampleBuild sampleData).result =
      .panicked ∧
    (dataSourceForemanOrganizationRead
      { shortClient with sendQuery := fun _ => (⟨-1, []⟩, none) } sampleBuild sampleData).result =
      .panicked := by
  refine ⟨?_, ?_, ?_⟩
  · rw [QueryOrganization_eq]; rfl
  · rw [dataSourceRead_eq _ _ _ ⟨1, []⟩ (by rw [QueryOrganization_eq]; rfl)]; rfl
  · rw [dataSourceRead_eq _ _ _ ⟨-1, []⟩ (by rw [QueryOrganization_eq]; rfl)]; rfl

/-- C10: after a `QueryOrganization` that returned without error every element
of `Results` is an `api.ForemanOrganization`, so the type assertion on it
succeeds; hence with subtotal 1 and a non-empty `Results` the data source read
returns `nil` with the resource data holding the decimal text of the first
element's `Id` and its `Name`. -/
theorem data_source_type_assertion_holds (c : Client) (bfo : ResourceData → ForemanObject)
    (d : ResourceData)
    (h : (QueryOrganization c (buildForemanOrganization bfo d)).result.2 = none) :
    (∀ x ∈ (QueryOrganization c (buildForemanOrganization bfo d)).result.1.Results,
      ∃ o, x = Iface.organization o ∧ x.assertOrganization = some o) ∧
    (∀ first rest,
      (QueryOrganization c (buildForemanOrganization bfo d)).result.1.Results = first :: rest →
      (QueryOrganization c (buildForemanOrganization bfo d)).result.1.Subtotal = 1 →
      ∃ o, first = Iface.organization o ∧
        (dataSourceForemanOrganizationRead c bfo d).result =
          .returned none ⟨Itoa o.Id, o.Name⟩) := by
  obtain ⟨results, hres⟩ := query_ok_results c _ h
  have hall : ∀ x ∈ (QueryOrganization c (buildForemanOrganization bfo d)).result.1.Results,
      ∃ o, x = Iface.organization o ∧ x.assertOrganization = some o := by
    intro x hx
    rw [hres, List.mem_map] at hx
    obtain ⟨o, _, rfl⟩ := hx
    exact ⟨o, rfl, rfl⟩
  refine ⟨hall, ?_⟩
  intro first rest hfirst hsub
  obtain ⟨o, ho, hassert⟩ := hall first (by rw [hfirst]; exact List.mem_cons_self _ _)
  refine ⟨o, ho, ?_⟩
  cases hq : (QueryOrganization c (buildForemanOrganization bfo d)).result with
  | mk qr qerr =>
    rw [hq] at h hfirst hsub
    simp only at h hfirst hsub
    subst h
    rw [dataSourceRead_eq c bfo d qr hq, hfirst]
    simp [hsub, hassert]

/-- Instance of C10: the service answers subtotal 1 with the record of
organization 1 named production; the read returns `nil` and stores id 1 and that
name. -/
theorem data_source_type_assertion_holds_witness :
    (dataSourceForemanOrganizationRead okClient sampleBuild sampleData).result =
      .returned none ⟨"1", "production"⟩ := by
  obtain ⟨o, ho, hr⟩ := (data_source_type_assertion_holds okClient sampleBuild sampleData
    (by rw [QueryOrganization_eq]; rfl)).2 (Iface.organization ⟨⟨1, "production"⟩⟩) []
    (by rw [QueryOrganization_eq]; rfl) (by rw [QueryOrganization_eq]; rfl)
  cases ho
  exact hr

/-! ## Retyping the generic records -/

theorem foldName_id : foldName "id" = "id" := by decide

theorem foldName_name : foldName "name" = "name" := by decide

theorem decodeMembers_carries (id : Int) (name : String)
    (hid : minInt ≤ id ∧ id ≤ maxInt) :
    ∀ (members : List (String × JSON)) (o : ForemanOrganization),
      (∀ kv ∈ members, foldName kv.1 = "id" → kv.2 = JSON.num id) →
      (∀ kv ∈ members, foldName kv.1 = "name" → kv.2 = JSON.str name) →
      ∃ o1, decodeMembers o members = .ok o1 ∧
        (o1.Id = id ∨ (o1.Id = o.Id ∧ ∀ kv ∈ members, foldName kv.1 ≠ "id")) ∧
        (o1.Name = name ∨ (o1.Name = o.Name ∧ ∀ kv ∈ members, foldName kv.1 ≠ "name")) := by
  intro members
  induction members with
  | nil =>
    intro o _ _
    exact ⟨o, rfl, Or.inr ⟨rfl, by simp⟩, Or.inr ⟨rfl, by simp⟩⟩
  | cons kv rest ih =>
    intro o h1 h2
    obtain ⟨k, v⟩ := kv
    have h1r : ∀ kv ∈ rest, foldName kv.1 = "id" → kv.2 = JSON.num id :=
      fun kv hkv => h1 kv (List.mem_cons_of_mem _ hkv)
    have h2r : ∀ kv ∈ rest, foldName kv.1 = "name" → kv.2 = JSON.str name :=
      fun kv hkv => h2 kv (List.mem_cons_of_mem _ hkv)
    by_cases hk : foldName k = "id"
    · have hv : v = JSON.num id := h1 (k, v) (List.mem_cons_self _ _) hk
      have hkn : foldName k ≠ "name" := by rw [hk]; decide
      have hstep : decodeMember o k v = .ok { o with Id := id } := by
        unfold decodeMember
        rw [if_pos hk, hv]
        simp only [hid, and_self, if_true]
      obtain ⟨o1, hdec, hI, hN⟩ := ih { o with Id := id } h1r h2r
      refine ⟨o1, by simp [decodeMembers, hstep, hdec], ?_, ?_⟩
      · rcases hI with hI | ⟨hI, _⟩
        · exact Or.inl hI
        · exact Or.inl hI
      · rcases hN with hN | ⟨hN, hno⟩
        · exact Or.inl hN
        · refine Or.inr ⟨hN, ?_⟩
          intro kv hkv
          rcases List.mem_cons.mp hkv with rfl | hkv
          · exact hkn
          · exact hno kv hkv
    · by_cases hk2 : foldName k = "name"
      · have hv : v = JSON.str name := h2 (k, v) (List.mem_cons_self _ _) hk2
        have hstep : decodeMember o k v = .ok { o with Name := name } := by
          unfold decodeMember
          rw [if_neg hk, if_pos hk2, hv]
        obtain ⟨o1, hdec, hI, hN⟩ := ih { o with Name := name } h1r h2r
        refine ⟨o1, by simp [decodeMembers, hstep, hdec], ?_, ?_⟩
        · rcases hI with hI | ⟨hI, hno⟩
          · exact Or.inl hI
          · refine Or.inr ⟨hI, ?_⟩
            intro kv hkv
            rcases List.mem_cons.mp hkv with rfl | hkv
            · exact hk
            · exact hno kv hkv
        · rcases hN with hN | ⟨hN, _⟩
          · exact Or.inl hN
          · exact Or.inl hN
      · have hstep : decodeMember o k v = .ok o := by
          unfold decodeMember
          rw [if_neg hk, if_neg hk2]
        obtain ⟨o1, hdec, hI, hN⟩ := ih o h1r h2r
        refine ⟨o1, by simp [decodeMembers, hstep, hdec], ?_, ?_⟩
        · rcases hI with hI | ⟨hI, hno⟩
          · exact Or.inl hI
          · refine Or.inr ⟨hI, ?_⟩
            intro kv hkv
            rcases List.mem_cons.mp hkv with rfl | hkv
            · exact hk
            · exact hno kv hkv
        · rcases hN with hN | ⟨hN, hno⟩
          · exact Or.inl hN
          · refine Or.inr ⟨hN, ?_⟩
            intro kv hkv
            rcases List.mem_cons.mp hkv with rfl | hkv
            · exact hk2
            · exact hno kv hkv

theorem toJSONMembers_eq (members : List (String × Generic)) :
    toJSONMembers members = members.map (fun g => (g.1, g.2.toJSON)) := by
  induction members with
  | nil => rfl
  | cons g rest ih =>
    obtain ⟨k, v⟩ := g
    simp only [toJSONMembers, ih, List.map_cons]

theorem marshalFloat64_exact (id : Int) (hid : -(2 ^ 53) ≤ id ∧ id ≤ 2 ^ 53) :
    marshalFloat64 (nearestFloat64 id) = JSON.num id := by
  have ha : id.natAbs ≤ 2 ^ 53 := by omega
  have hn : nearestFloat64 id = id := by
    unfold nearestFloat64
    simp only [ha, if_true]
  have hlt : id.natAbs < 10 ^ 21 := by
    have : (2 : Nat) ^ 53 < 10 ^ 21 := by norm_num
    omega
  have hs : shortestDecimal id = id := by
    unfold shortestDecimal
    simp only [ha, if_true]
  rw [hn]
  unfold marshalFloat64
  rw [if_pos hlt, hs]

theorem exact_in_int (id : Int) (hid : -(2 ^ 53) ≤ id ∧ id ≤ 2 ^ 53) :
    minInt ≤ id ∧ id ≤ maxInt := by
  unfold minInt maxInt
  constructor <;> omega

theorem decodeOrganization_carries (members : List (String × Generic)) (id : Int)
    (name : String) (hc : Carries members id name) (hid : -(2 ^ 53) ≤ id ∧ id ≤ 2 ^ 53) :
    decodeOrganization (Generic.obj members).toJSON = .ok ⟨⟨id, name⟩⟩ := by
  have hobj : (Generic.obj members).toJSON = JSON.obj (toJSONMembers members) := by
    rw [Generic.toJSON]
  have h1 : ∀ kv ∈ toJSONMembers members, foldName kv.1 = "id" → kv.2 = JSON.num id := by
    intro kv hkv hf
    rw [toJSONMembers_eq, List.mem_map] at hkv
    obtain ⟨g, hg, rfl⟩ := hkv
    have := hc.id_only g hg hf
    simp only [this, Generic.toJSON]
    exact marshalFloat64_exact id hid
  have h2 : ∀ kv ∈ toJSONMembers members, foldName kv.1 = "name" → kv.2 = JSON.str name := by
    intro kv hkv hf
    rw [toJSONMembers_eq, List.mem_map] at hkv
    obtain ⟨g, hg, rfl⟩ := hkv
    have := hc.name_only g hg hf
    simp only [this, Generic.toJSON]
  have m1 : ∃ kv ∈ toJSONMembers members, foldName kv.1 = "id" := by
    refine ⟨("id", (Generic.number id).toJSON), ?_, foldName_id⟩
    rw [toJSONMembers_eq, List.mem_map]
    exact ⟨_, hc.id_mem, rfl⟩
  have m2 : ∃ kv ∈ toJSONMembers members, foldName kv.1 = "name" := by
    refine ⟨("name", (Generic.str name).toJSON), ?_, foldName_name⟩
    rw [toJSONMembers_eq, List.mem_map]
    exact ⟨_, hc.name_mem, rfl⟩
  obtain ⟨o1, hdec, hI, hN⟩ :=
    decodeMembers_carries id name (exact_in_int id hid) (toJSONMembers members) {} h1 h2
  have e1 : o1.Id = id := by
    rcases hI with hI | ⟨_, hno⟩
    · exact hI
    · obtain ⟨kv, hkv, hf⟩ := m1
      exact absurd hf (hno kv hkv)
  have e2 : o1.Name = name := by
    rcases hN with hN | ⟨_, hno⟩
    · exact hN
    · obtain ⟨kv, hkv, hf⟩ := m2
      exact absurd hf (hno kv hkv)
  obtain ⟨⟨i, n⟩⟩ := o1
  simp only at e1 e2
  subst e1 e2
  rw [hobj]
  exact hdec

theorem unmarshal_carries (recs : List (List (String × Generic) × Int × String))
    (hrec : ∀ r ∈ recs, Carries r.1 r.2.1 r.2.2 ∧ -(2 ^ 53) ≤ r.2.1 ∧ r.2.1 ≤ 2 ^ 53) :
    jsonUnmarshalOrganizations (recs.map (fun r => (Generic.obj r.1).toJSON)) =
      .ok (recs.map (fun r => (⟨⟨r.2.1, r.2.2⟩⟩ : ForemanOrganization))) := by
  induction recs with
  | nil => rfl
  | cons r rest ih =>
    have hr := hrec r (List.mem_cons_self _ _)
    have ih2 := ih (fun x hx => hrec x (List.mem_cons_of_mem _ hx))
    simp only [List.map_cons, jsonUnmarshalOrganizations,
      decodeOrganization_carries r.1 r.2.1 r.2.2 hr.1 hr.2, ih2]

theorem query_sent_eq (c : Client) (e : ForemanOrganization)
    (h : c.requestError "GET" "/organizations" none = none) :
    (QueryOrganization c e).sent = [searchRequest c e] := by
  rw [QueryOrganization_eq, h]
  simp only
  cases hs : (c.sendQuery (searchRequest c e)).2 with
  | some err => rfl
  | none =>
    simp only
    cases hd : jsonUnmarshalOrganizations
      ((c.sendQuery (searchRequest c e)).1.Results.map Iface.toJSON) <;> rfl

theorem carries_sample (id : Int) :
    Carries [("id", Generic.number id), ("name", Generic.str "production")] id "production" := by
  refine ⟨by simp, by simp, ?_, ?_, ?_⟩
  · intro kv hkv hf
    simp only [List.mem_cons, List.mem_singleton, List.not_mem_nil, or_false] at hkv
    rcases hkv with rfl | rfl
    · rfl
    · exact absurd hf (show ¬ foldName "name" = "id" by decide)
  · intro kv hkv hf
    simp only [List.mem_cons, List.mem_singleton, List.not_mem_nil, or_false] at hkv
    rcases hkv with rfl | rfl
    · exact absurd hf (show ¬ foldName "id" = "name" by decide)
    · rfl
  · intro kv hkv
    simp only [List.mem_cons, List.mem_singleton, List.not_mem_nil, or_false] at hkv
    rcases hkv with rfl | rfl
    · exact Or.inl foldName_id
    · exact Or.inr foldName_name

/-- C2, as stated, fails: a generic record holds its id as a `float64`, which
`json.Marshal` writes back in its shortest decimal form.  The record with the
integer id 9223372036854775808 and the name production carries both members,
the request can be built and the transport decodes the envelope, yet
`QueryOrganization` returns an error, the digits written not fitting an `int`;
and for the record with the id 1152921504606846976 it returns an organization
with the `Id` 1152921504606847000, which is not the record's. -/
theorem query_rejects_id_beyond_int :
    (Carries [("id", .number 9223372036854775808), ("name", .str "production")]
        9223372036854775808 "production" ∧
      hugeIdClient.requestError "GET" "/organizations" none = none ∧
      (∀ req, hugeIdClient.sendQuery req =
        (⟨1, [.generic (.obj [("id", .number 9223372036854775808),
          ("name", .str "production")])]⟩, none)) ∧
      (QueryOrganization hugeIdClient ⟨⟨0, "production"⟩⟩).result.2 ≠ none) ∧
    (Carries [("id", .number 1152921504606846976), ("name", .str "production")]
        1152921504606846976 "production" ∧
      bigIdClient.requestError "GET" "/organizations" none = none ∧
      (∀ req, bigIdClient.sendQuery req =
        (⟨1, [.generic (.obj [("id", .number 1152921504606846976),
          ("name", .str "production")])]⟩, none)) ∧
      (QueryOrganization bigIdClient ⟨⟨0, "production"⟩⟩).result =
        (⟨1, [Iface.organization ⟨⟨1152921504606847000, "production"⟩⟩]⟩, none)) := by
  refine ⟨⟨carries_sample _, rfl, fun _ => rfl, ?_⟩, ⟨carries_sample _, rfl, fun _ => rfl, ?_⟩⟩
  · rw [QueryOrganization_eq]
    decide
  · rw [QueryOrganization_eq]
    rfl

/-- C2, amended: when the request can be built, the transport decodes the
response to the request sent into an envelope without error, and the generic
result list consists of objects whose members are an integer `id` of magnitude
at most `2^53` (which a `float64` holds exactly) and a string `name`,
`QueryOrganization` returns without error the envelope with the same subtotal
and with `Results` of the same length and order, the i-th element being the
`ForemanOrganization` with the `Id` and `Name` of the i-th record. -/
theorem query_retypes_records (c : Client) (e : ForemanOrganization) (env : QueryResponse)
    (recs : List (List (String × Generic) × Int × String))
    (hreq : c.requestError "GET" "/organizations" none = none)
    (hsend : ∀ req ∈ (QueryOrganization c e).sent, c.sendQuery req = (env, none))
    (hres : env.Results = recs.map (fun r => Iface.generic (Generic.obj r.1)))
    (hrec : ∀ r ∈ recs, Carries r.1 r.2.1 r.2.2 ∧ -(2 ^ 53) ≤ r.2.1 ∧ r.2.1 ≤ 2 ^ 53) :
    (QueryOrganization c e).result =
      (⟨env.Subtotal, recs.map (fun r => Iface.organization ⟨⟨r.2.1, r.2.2⟩⟩)⟩, none) ∧
    (QueryOrganization c e).result.1.Results.length = env.Results.length := by
  have hs : c.sendQuery (searchRequest c e) = (env, none) :=
    hsend _ (by rw [query_sent_eq c e hreq]; exact List.mem_singleton_self _)
  have hmap : env.Results.map Iface.toJSON = recs.map (fun r => (Generic.obj r.1).toJSON) := by
    rw [hres, List.map_map]; rfl
  have hq : (QueryOrganization c e).result =
      (⟨env.Subtotal, recs.map (fun r => Iface.organization ⟨⟨r.2.1, r.2.2⟩⟩)⟩, none) := by
    rw [QueryOrganization_eq, hreq]
    simp only [hs, hmap, unmarshal_carries recs hrec, List.map_map]
    rfl
  refine ⟨hq, ?_⟩
  rw [hq, hres]
  simp

/-- Instance of the amended C2: a one-record response with subtotal 1 yields
subtotal 1 and `Results` of length 1 whose element has the record's name. -/
theorem query_retypes_records_witness :
    (QueryOrganization okClient ⟨⟨0, "production"⟩⟩).result =
      (⟨1, [Iface.organization ⟨⟨1, "production"⟩⟩]⟩, none) ∧
    (QueryOrganization okClient ⟨⟨0, "production"⟩⟩).result.1.Results.length = 1 :=
  query_retypes_records okClient ⟨⟨0, "production"⟩⟩
    ⟨1, [.generic (.obj [("id", .number 1), ("name", .str "production")])]⟩
    [([("id", .number 1), ("name", .str "production")], 1, "production")]
    rfl (fun _ _ => rfl) rfl
    (by
      intro r hr
      rw [List.mem_singleton] at hr
      subst hr
      exact ⟨carries_sample 1, by decide, by decide⟩)

/-! ## Escaping and unescaping of the query string -/

theorem utf8_append (a b : String) : utf8 (a ++ b) = utf8 a ++ utf8 b := by
  simp [utf8, String.data_append, List.flatMap_append]

theorem utf8_lt (s : String) : ∀ b ∈ utf8 s, b < 256 := by
  intro b hb
  simp only [utf8, List.mem_flatMap, List.mem_map] at hb
  obtain ⟨ch, _, u, _, rfl⟩ := hb
  exact u.val.isLt

theorem hex_digit : ∀ n, n < 16 →
    ishex (upperhex.getD n 0) = true ∧ unhex (upperhex.getD n 0) = n := by
  decide

theorem QueryUnescape_cons (c : Nat) (rest : Bytes) :
    QueryUnescape (c :: rest) =
      if c = 37 then
        match rest with
        | h :: l :: rest2 =>
          if ishex h && ishex l then
            (QueryUnescape rest2).map (fun t => (unhex h * 16 + unhex l) :: t)
          else none
        | _ => none
      else if c = 43 then (QueryUnescape rest).map (fun t => 32 :: t)
      else (QueryUnescape rest).map (fun t => c :: t) := by
  cases rest with
  | nil => rfl
  | cons h t => cases t <;> rfl

theorem QueryUnescape_percent (h l : Nat) (rest : Bytes)
    (hh : ishex h = true) (hl : ishex l = true) :
    QueryUnescape (37 :: h :: l :: rest) =
      (QueryUnescape rest).map (fun t => (unhex h * 16 + unhex l) :: t) := by
  rw [QueryUnescape_cons]
  simp only [if_true, hh, hl, Bool.and_self]

theorem QueryUnescape_plus (rest : Bytes) :
    QueryUnescape (43 :: rest) = (QueryUnescape rest).map (fun t => 32 :: t) := by
  rw [QueryUnescape_cons]
  rfl

theorem QueryUnescape_plain (c : Nat) (rest : Bytes) (h37 : c ≠ 37) (h43 : c ≠ 43) :
    QueryUnescape (c :: rest) = (QueryUnescape rest).map (fun t => c :: t) := by
  rw [QueryUnescape_cons, if_neg h37, if_neg h43]

theorem unescape_escapeByte (c : Nat) (hc : c < 256) (rest : Bytes) :
    QueryUnescape (escapeByte c ++ rest) = (QueryUnescape rest).map (fun t => c :: t) := by
  unfold escapeByte
  by_cases h32 : c = 32
  · subst h32
    exact QueryUnescape_plus rest
  · rw [if_neg h32]
    by_cases hs : shouldEscape c = true
    · rw [if_pos hs]
      have h1 := hex_digit (c / 16) (by omega)
      have h2 := hex_digit (c % 16) (by omega)
      have hval : c / 16 * 16 + c % 16 = c := by omega
      show QueryUnescape (37 :: upperhex.getD (c / 16) 0 :: upperhex.getD (c % 16) 0 :: rest) = _
      rw [QueryUnescape_percent _ _ _ h1.1 h2.1, h1.2, h2.2, hval]
    · rw [if_neg hs]
      have h37 : c ≠ 37 := by
        intro h; subst h; exact hs (by decide)
      have h43 : c ≠ 43 := by
        intro h; subst h; exact hs (by decide)
      exact QueryUnescape_plain c rest h37 h43

theorem unescape_escape (s : Bytes) (hs : ∀ b ∈ s, b < 256) :
    QueryUnescape (QueryEscape s) = some s := by
  induction s with
  | nil => rfl
  | cons c rest ih =>
    have hc : c < 256 := hs c (List.mem_cons_self _ _)
    have ih2 := ih (fun b hb => hs b (List.mem_cons_of_mem _ hb))
    have : QueryEscape (c :: rest) = escapeByte c ++ QueryEscape rest := by
      simp [QueryEscape]
    rw [this, unescape_escapeByte c hc, ih2]
    rfl

/-! ## Order of keys and the entries of `Values` -/

theorem bytesLt_irrefl (a : Bytes) : bytesLt a a = false := by
  induction a with
  | nil => rfl
  | cons x xs ih => simp [bytesLt, ih]

theorem bytesLt_asymm : ∀ (a b : Bytes), bytesLt a b = true → bytesLt b a = false := by
  intro a
  induction a with
  | nil => intro b _; cases b <;> rfl
  | cons x xs ih =>
    intro b h
    cases b with
    | nil => simp [bytesLt] at h
    | cons y ys =>
      unfold bytesLt at h ⊢
      by_cases h1 : x < y
      · have h2 : ¬ y < x := by omega
        simp [h1, h2]
      · by_cases h2 : y < x
        · simp [h1, h2] at h
        · simp only [h1, h2, if_false] at h ⊢
          exact ih ys h

theorem bytesLt_trans : ∀ (a b c : Bytes),
    bytesLt a b = true → bytesLt b c = true → bytesLt a c = true := by
  intro a
  induction a with
  | nil =>
    intro b c h1 h2
    cases b with
    | nil => simp [bytesLt] at h1
    | cons y ys =>
      cases c with
      | nil => simp [bytesLt] at h2
      | cons z zs => rfl
  | cons x xs ih =>
    intro b c h1 h2
    cases b with
    | nil => simp [bytesLt] at h1
    | cons y ys =>
      cases c with
      | nil => simp [bytesLt] at h2
      | cons z zs =>
        unfold bytesLt at h1 h2 ⊢
        by_cases hxy : x < y
        · by_cases hyz : y < z
          · have : x < z := by omega
            simp [this]
          · by_cases hzy : z < y
            · simp [hyz, hzy] at h2
            · have : x < z := by omega
              simp [this]
        · by_cases hyx : y < x
          · simp [hxy, hyx] at h1
          · simp only [hxy, hyx, if_false] at h1
            have hxy2 : x = y := by omega
            subst hxy2
            by_cases hxz : x < z
            · simp [hxz]
            · by_cases hzx : z < x
              · simp [hxz, hzx] at h2
              · simp only [hxz, hzx, if_false] at h2 ⊢
                exact ih ys zs h1 h2

theorem bytesLt_total : ∀ (a b : Bytes),
    bytesLt a b = false → a ≠ b → bytesLt b a = true := by
  intro a
  induction a with
  | nil =>
    intro b h hne
    cases b with
    | nil => exact absurd rfl hne
    | cons y ys => simp [bytesLt] at h
  | cons x xs ih =>
    intro b h hne
    cases b with
    | nil => rfl
    | cons y ys =>
      unfold bytesLt at h ⊢
      by_cases hxy : x < y
      · simp [hxy] at h
      · by_cases hyx : y < x
        · simp [hyx]
        · simp only [hxy, hyx, if_false] at h ⊢
          have hxy2 : x = y := by omega
          subst hxy2
          exact ih ys h (fun heq => hne (by rw [heq]))

theorem mem_Add (k x : Bytes) : ∀ (W : Values) (p : Bytes × List Bytes),
    p ∈ Values.Add W k x →
      p = (k, [x]) ∨ (∃ vs, (k, vs) ∈ W ∧ p = (k, vs ++ [x])) ∨ p ∈ W := by
  intro W
  induction W with
  | nil =>
    intro p hp
    simp only [Values.Add, List.mem_singleton] at hp
    exact Or.inl hp
  | cons q rest ih =>
    intro p hp
    obtain ⟨k0, vs⟩ := q
    unfold Values.Add at hp
    by_cases h1 : k = k0
    · rw [if_pos h1] at hp
      subst h1
      rcases List.mem_cons.mp hp with rfl | hp
      · exact Or.inr (Or.inl ⟨vs, List.mem_cons_self _ _, rfl⟩)
      · exact Or.inr (Or.inr (List.mem_cons_of_mem _ hp))
    · rw [if_neg h1] at hp
      by_cases h2 : bytesLt k k0 = true
      · rw [if_pos h2] at hp
        rcases List.mem_cons.mp hp with rfl | hp
        · exact Or.inl rfl
        · exact Or.inr (Or.inr hp)
      · rw [if_neg h2] at hp
        rcases List.mem_cons.mp hp with rfl | hp
        · exact Or.inr (Or.inr (List.mem_cons_self _ _))
        · rcases ih p hp with h | ⟨vs2, hm, h⟩ | h
          · exact Or.inl h
          · exact Or.inr (Or.inl ⟨vs2, List.mem_cons_of_mem _ hm, h⟩)
          · exact Or.inr (Or.inr (List.mem_cons_of_mem _ h))

theorem mem_Set (k x : Bytes) : ∀ (W : Values) (p : Bytes × List Bytes),
    p ∈ Values.Set W k x → p = (k, [x]) ∨ p ∈ W := by
  intro W
  induction W with
  | nil =>
    intro p hp
    simp only [Values.Set, List.mem_singleton] at hp
    exact Or.inl hp
  | cons q rest ih =>
    intro p hp
    obtain ⟨k0, vs⟩ := q
    unfold Values.Set at hp
    by_cases h1 : k = k0
    · rw [if_pos h1] at hp
      rcases List.mem_cons.mp hp with rfl | hp
      · exact Or.inl rfl
      · exact Or.inr (List.mem_cons_of_mem _ hp)
    · rw [if_neg h1] at hp
      by_cases h2 : bytesLt k k0 = true
      · rw [if_pos h2] at hp
        rcases List.mem_cons.mp hp with rfl | hp
        · exact Or.inl rfl
        · exact Or.inr hp
      · rw [if_neg h2] at hp
        rcases List.mem_cons.mp hp with rfl | hp
        · exact Or.inr (List.mem_cons_self _ _)
        · rcases ih p hp with h | h
          · exact Or.inl h
          · exact Or.inr (List.mem_cons_of_mem _ h)

theorem Add_sorted (k x : Bytes) : ∀ (W : Values), W.Sorted → (Values.Add W k x).Sorted := by
  intro W
  induction W with
  | nil =>
    intro _
    simp [Values.Add, Values.Sorted]
  | cons q rest ih =>
    intro hs
    obtain ⟨k0, vs⟩ := q
    unfold Values.Sorted at hs ih ⊢
    rw [List.pairwise_cons] at hs
    unfold Values.Add
    by_cases h1 : k = k0
    · rw [if_pos h1]
      exact List.pairwise_cons.mpr ⟨hs.1, hs.2⟩
    · rw [if_neg h1]
      by_cases h2 : bytesLt k k0 = true
      · rw [if_pos h2]
        refine List.pairwise_cons.mpr ⟨?_, List.pairwise_cons.mpr hs⟩
        intro p hp
        rcases List.mem_cons.mp hp with rfl | hp
        · exact h2
        · exact bytesLt_trans _ _ _ h2 (hs.1 p hp)
      · rw [if_neg h2]
        refine List.pairwise_cons.mpr ⟨?_, ih hs.2⟩
        intro p hp
        have hk : bytesLt k0 k = true :=
          bytesLt_total k k0 (by simpa using h2) h1
        rcases mem_Add k x rest p hp with h | ⟨vs2, _, h⟩ | h
        · rw [h]; exact hk
        · rw [h]; exact hk
        · exact hs.1 p h

theorem Set_sorted (k x : Bytes) : ∀ (W : Values), W.Sorted → (Values.Set W k x).Sorted := by
  intro W
  induction W with
  | nil =>
    intro _
    simp [Values.Set, Values.Sorted]
  | cons q rest ih =>
    intro hs
    obtain ⟨k0, vs⟩ := q
    unfold Values.Sorted at hs ih ⊢
    rw [List.pairwise_cons] at hs
    unfold Values.Set
    by_cases h1 : k = k0
    · rw [if_pos h1]
      subst h1
      exact List.pairwise_cons.mpr ⟨hs.1, hs.2⟩
    · rw [if_neg h1]
      by_cases h2 : bytesLt k k0 = true
      · rw [if_pos h2]
        refine List.pairwise_cons.mpr ⟨?_, List.pairwise_cons.mpr hs⟩
        intro p hp
        rcases List.mem_cons.mp hp with rfl | hp
        · exact h2
        · exact bytesLt_trans _ _ _ h2 (hs.1 p hp)
      · rw [if_neg h2]
        refine List.pairwise_cons.mpr ⟨?_, ih hs.2⟩
        intro p hp
        have hk : bytesLt k0 k = true :=
          bytesLt_total k k0 (by simpa using h2) h1
        rcases mem_Set k x rest p hp with h | h
        · rw [h]; exact hk
        · exact hs.1 p h

theorem Add_proper (k x : Bytes) (hk : ∀ b ∈ k, b < 256) (hx : ∀ b ∈ x, b < 256)
    (W : Values) (hW : W.Proper) : (Values.Add W k x).Proper := by
  intro p hp
  rcases mem_Add k x W p hp with h | ⟨vs, hm, h⟩ | h
  · subst h
    refine ⟨by simp, hk, ?_⟩
    intro y hy
    rw [List.mem_singleton] at hy
    subst hy
    exact hx
  · subst h
    have hv := hW (k, vs) hm
    refine ⟨by simp, hk, ?_⟩
    intro y hy
    rcases List.mem_append.mp hy with hy | hy
    · exact hv.2.2 y hy
    · rw [List.mem_singleton] at hy
      subst hy
      exact hx
  · exact hW p h

theorem Set_proper (k x : Bytes) (hk : ∀ b ∈ k, b < 256) (hx : ∀ b ∈ x, b < 256)
    (W : Values) (hW : W.Proper) : (Values.Set W k x).Proper := by
  intro p hp
  rcases mem_Set k x W p hp with h | h
  · subst h
    refine ⟨by simp, hk, ?_⟩
    intro y hy
    rw [List.mem_singleton] at hy
    subst hy
    exact hx
  · exact hW p h

theorem unhex_le (c : Nat) : unhex c ≤ 15 := by
  unfold unhex
  split_ifs <;> omega

theorem QueryUnescape_small : ∀ (n : Nat) (l out : Bytes), l.length ≤ n →
    (∀ b ∈ l, b < 256) → QueryUnescape l = some out → ∀ b ∈ out, b < 256 := by
  intro n
  induction n with
  | zero =>
    intro l out hl _ h
    have : l = [] := List.length_eq_zero.mp (by omega)
    subst this
    simp only [QueryUnescape, Option.some.injEq] at h
    subst h
    simp
  | succ n ih =>
    intro l out hl hs h
    cases l with
    | nil =>
      simp only [QueryUnescape, Option.some.injEq] at h
      subst h
      simp
    | cons c rest =>
      have hrest : ∀ b ∈ rest, b < 256 := fun b hb => hs b (List.mem_cons_of_mem _ hb)
      have hlen : rest.length ≤ n := by simp at hl; omega
      rw [QueryUnescape_cons] at h
      by_cases h37 : c = 37
      · rw [if_pos h37] at h
        cases rest with
        | nil => simp at h
        | cons hh t =>
          cases t with
          | nil => simp at h
          | cons ll rest2 =>
            simp only at h
            by_cases hx : (ishex hh && ishex ll) = true
            · rw [if_pos hx] at h
              cases hq : QueryUnescape rest2 with
              | none => rw [hq] at h; simp at h
              | some t2 =>
                rw [hq] at h
                simp only [Option.map_some', Option.some.injEq] at h
                subst h
                have ht2 := ih rest2 t2 (by simp at hlen; omega)
                  (fun b hb => hrest b (List.mem_cons_of_mem _ (List.mem_cons_of_mem _ hb))) hq
                intro b hb
                rcases List.mem_cons.mp hb with rfl | hb
                · have := unhex_le hh
                  have := unhex_le ll
                  omega
                · exact ht2 b hb
            · rw [if_neg hx] at h
              simp at h
      · rw [if_neg h37] at h
        cases hq : QueryUnescape rest with
        | none => rw [hq] at h; simp at h
        | some t2 =>
          rw [hq] at h
          have ht2 := ih rest t2 hlen hrest hq
          by_cases h43 : c = 43
          · rw [if_pos h43] at h
            simp only [Option.map_some', Option.some.injEq] at h
            subst h
            intro b hb
            rcases List.mem_cons.mp hb with rfl | hb
            · omega
            · exact ht2 b hb
          · rw [if_neg h43] at h
            simp only [Option.map_some', Option.some.injEq] at h
            subst h
            intro b hb
            rcases List.mem_cons.mp hb with rfl | hb
            · exact hs _ (List.mem_cons_self _ _)
            · exact ht2 b hb

theorem cut_mem (sep : Nat) : ∀ (l : Bytes) (b : Nat),
    (b ∈ (cut sep l).1 → b ∈ l) ∧ (b ∈ (cut sep l).2 → b ∈ l) := by
  intro l
  induction l with
  | nil => intro b; simp [cut]
  | cons c rest ih =>
    intro b
    unfold cut
    by_cases h : c = sep
    · rw [if_pos h]
      exact ⟨fun hb => by simp at hb, fun hb => List.mem_cons_of_mem _ hb⟩
    · rw [if_neg h]
      constructor
      · intro hb
        rcases List.mem_cons.mp hb with rfl | hb
        · exact List.mem_cons_self _ _
        · exact List.mem_cons_of_mem _ ((ih b).1 hb)
      · intro hb
        exact List.mem_cons_of_mem _ ((ih b).2 hb)

theorem pieces_mem : ∀ (l : Bytes), ∀ p ∈ pieces l, ∀ b ∈ p, b ∈ l := by
  intro l
  induction l with
  | nil =>
    intro p hp b hb
    simp only [pieces, List.mem_singleton] at hp
    subst hp
    exact hb
  | cons c rest ih =>
    intro p hp b hb
    unfold pieces at hp
    by_cases h : c = 38
    · rw [if_pos h] at hp
      rcases List.mem_cons.mp hp with rfl | hp
      · simp at hb
      · exact List.mem_cons_of_mem _ (ih p hp b hb)
    · rw [if_neg h] at hp
      cases hps : pieces rest with
      | nil =>
        rw [hps] at hp
        simp only [List.mem_singleton] at hp
        subst hp
        rw [List.mem_singleton] at hb
        subst hb
        exact List.mem_cons_self _ _
      | cons p0 ps =>
        rw [hps] at hp
        simp only at hp
        rcases List.mem_cons.mp hp with rfl | hp
        · rcases List.mem_cons.mp hb with rfl | hb
          · exact List.mem_cons_self _ _
          · exact List.mem_cons_of_mem _ (ih p0 (by rw [hps]; exact List.mem_cons_self _ _) b hb)
        · exact List.mem_cons_of_mem _
            (ih p (by rw [hps]; exact List.mem_cons_of_mem _ hp) b hb)

theorem parsePiece_wf (acc : Values × Option GoError) (piece : Bytes)
    (hp : ∀ b ∈ piece, b < 256) (hs : acc.1.Sorted) (hw : acc.1.Proper) :
    (parsePiece acc piece).1.Sorted ∧ (parsePiece acc piece).1.Proper := by
  unfold parsePiece
  by_cases h59 : 59 ∈ piece
  · rw [if_pos h59]; exact ⟨hs, hw⟩
  · rw [if_neg h59]
    by_cases he : piece = []
    · rw [if_pos he]; exact ⟨hs, hw⟩
    · rw [if_neg he]
      cases hk : QueryUnescape (cut 61 piece).1 with
      | none => exact ⟨hs, hw⟩
      | some key =>
        simp only
        cases hv : QueryUnescape (cut 61 piece).2 with
        | none => exact ⟨hs, hw⟩
        | some value =>
          simp only
          have hkey := QueryUnescape_small _ _ key (le_refl _)
            (fun b hb => hp b ((cut_mem 61 piece b).1 hb)) hk
          have hval := QueryUnescape_small _ _ value (le_refl _)
            (fun b hb => hp b ((cut_mem 61 piece b).2 hb)) hv
          exact ⟨Add_sorted key value acc.1 hs, Add_proper key value hkey hval acc.1 hw⟩

theorem foldl_parsePiece_wf : ∀ (ps : List Bytes) (acc : Values × Option GoError),
    (∀ p ∈ ps, ∀ b ∈ p, b < 256) → acc.1.Sorted → acc.1.Proper →
    (ps.foldl parsePiece acc).1.Sorted ∧ (ps.foldl parsePiece acc).1.Proper := by
  intro ps
  induction ps with
  | nil => intro acc _ hs hw; exact ⟨hs, hw⟩
  | cons p rest ih =>
    intro acc hps hs hw
    have h1 := parsePiece_wf acc p (hps p (List.mem_cons_self _ _)) hs hw
    exact ih (parsePiece acc p) (fun q hq => hps q (List.mem_cons_of_mem _ hq)) h1.1 h1.2

theorem ParseQuery_wf (q : Bytes) (hq : ∀ b ∈ q, b < 256) :
    (ParseQuery q).1.Sorted ∧ (ParseQuery q).1.Proper := by
  unfold ParseQuery
  refine foldl_parsePiece_wf (pieces q) ([], none) ?_ ?_ ?_
  · intro p hp b hb
    exact hq b (pieces_mem q p hp b hb)
  · simp [Values.Sorted]
  · intro p hp
    simp at hp

/-! ## Parsing an encoded query -/

theorem hex_digit_safe : ∀ n, n < 16 →
    upperhex.getD n 0 ≠ 38 ∧ upperhex.getD n 0 ≠ 61 ∧ upperhex.getD n 0 ≠ 59 := by
  decide

theorem escapeByte_safe (c : Nat) (hc : c < 256) :
    ∀ x ∈ escapeByte c, x ≠ 38 ∧ x ≠ 61 ∧ x ≠ 59 := by
  intro x hx
  unfold escapeByte at hx
  by_cases h32 : c = 32
  · rw [if_pos h32] at hx
    rw [List.mem_singleton] at hx
    subst hx
    decide
  · rw [if_neg h32] at hx
    by_cases hs : shouldEscape c = true
    · rw [if_pos hs] at hx
      simp only [List.mem_cons, List.mem_singleton, List.not_mem_nil, or_false] at hx
      rcases hx with rfl | rfl | rfl
      · decide
      · exact hex_digit_safe (c / 16) (by omega)
      · exact hex_digit_safe (c % 16) (by omega)
    · rw [if_neg hs] at hx
      rw [List.mem_singleton] at hx
      subst hx
      refine ⟨?_, ?_, ?_⟩ <;> (intro h; subst h; exact hs (by decide))

theorem QueryEscape_safe (s : Bytes) (hs : ∀ b ∈ s, b < 256) :
    ∀ x ∈ QueryEscape s, x ≠ 38 ∧ x ≠ 61 ∧ x ≠ 59 := by
  intro x hx
  simp only [QueryEscape, List.mem_flatMap] at hx
  obtain ⟨c, hc, hxc⟩ := hx
  exact escapeByte_safe c (hs c hc) x hxc

theorem pieces_single (l : Bytes) (h : ∀ x ∈ l, x ≠ 38) : pieces l = [l] := by
  induction l with
  | nil => rfl
  | cons c rest ih =>
    have hc : c ≠ 38 := h c (List.mem_cons_self _ _)
    have ih2 := ih (fun x hx => h x (List.mem_cons_of_mem _ hx))
    simp only [pieces, if_neg hc, ih2]

theorem cut_at (a b : Bytes) (h : ∀ x ∈ a, x ≠ 61) : cut 61 (a ++ 61 :: b) = (a, b) := by
  induction a with
  | nil => simp [cut]
  | cons c rest ih =>
    have hc : c ≠ 61 := h c (List.mem_cons_self _ _)
    have ih2 := ih (fun x hx => h x (List.mem_cons_of_mem _ hx))
    rw [List.cons_append, cut, if_neg hc, ih2]

theorem pieces_append (s t : Bytes) (h : ∀ x ∈ s, x ≠ 38) :
    pieces (s ++ 38 :: t) = s :: pieces t := by
  induction s with
  | nil => simp [pieces]
  | cons c rest ih =>
    have hc : c ≠ 38 := h c (List.mem_cons_self _ _)
    have ih2 := ih (fun x hx => h x (List.mem_cons_of_mem _ hx))
    rw [List.cons_append, pieces, if_neg hc, ih2]

theorem intercalate_cons_cons (s s2 : Bytes) (more : List Bytes) :
    List.intercalate [38] (s :: s2 :: more) = s ++ 38 :: List.intercalate [38] (s2 :: more) := by
  simp [List.intercalate, List.intersperse]

theorem pieces_intercalate : ∀ (segs : List Bytes), segs ≠ [] →
    (∀ s ∈ segs, ∀ x ∈ s, x ≠ 38) → pieces (List.intercalate [38] segs) = segs := by
  intro segs
  induction segs with
  | nil => intro h; exact absurd rfl h
  | cons s rest ih =>
    intro _ hs
    cases rest with
    | nil =>
      have : List.intercalate [38] [s] = s := by simp [List.intercalate, List.intersperse]
      rw [this]
      exact pieces_single s (hs s (List.mem_cons_self _ _))
    | cons s2 more =>
      rw [intercalate_cons_cons, pieces_append _ _ (hs s (List.mem_cons_self _ _)),
        ih (by simp) (fun t ht => hs t (List.mem_cons_of_mem _ ht))]

theorem parsePiece_pair (acc : Values × Option GoError) (k x : Bytes)
    (hk : ∀ b ∈ k, b < 256) (hx : ∀ b ∈ x, b < 256) :
    parsePiece acc (QueryEscape k ++ [61] ++ QueryEscape x) = (acc.1.Add k x, acc.2) := by
  have heq : QueryEscape k ++ [61] ++ QueryEscape x = QueryEscape k ++ 61 :: QueryEscape x := by
    simp
  have hsk := QueryEscape_safe k hk
  have hsx := QueryEscape_safe x hx
  have h59 : ¬ (59 ∈ QueryEscape k ++ 61 :: QueryEscape x) := by
    intro h
    rcases List.mem_append.mp h with h | h
    · exact (hsk 59 h).2.2 rfl
    · rcases List.mem_cons.mp h with h | h
      · exact absurd h (by decide)
      · exact (hsx 59 h).2.2 rfl
  have hne : QueryEscape k ++ 61 :: QueryEscape x ≠ [] := by simp
  rw [heq]
  unfold parsePiece
  rw [if_neg h59, if_neg hne, cut_at _ _ (fun y hy => (hsk y hy).2.1)]
  simp only [unescape_escape k hk, unescape_escape x hx]

theorem Add_append (k x : Bytes) : ∀ (A B : Values),
    (∀ p ∈ A, bytesLt p.1 k = true) →
    Values.Add (A ++ B) k x = A ++ Values.Add B k x := by
  intro A
  induction A with
  | nil => intro B _; rfl
  | cons q rest ih =>
    intro B h
    obtain ⟨k0, vs⟩ := q
    have h0 : bytesLt k0 k = true := h (k0, vs) (List.mem_cons_self _ _)
    have hne : k ≠ k0 := by
      intro heq
      rw [heq, bytesLt_irrefl] at h0
      exact Bool.noConfusion h0
    have hnl : ¬ (bytesLt k k0 = true) := by
      rw [bytesLt_asymm k0 k h0]
      exact Bool.noConfusion
    rw [List.cons_append, Values.Add, if_neg hne, if_neg hnl,
      ih B (fun p hp => h p (List.mem_cons_of_mem _ hp))]
    rfl

theorem foldl_values (k : Bytes) (hk : ∀ b ∈ k, b < 256) (A : Values)
    (hA : ∀ p ∈ A, bytesLt p.1 k = true) :
    ∀ (xs : List Bytes) (pre : List Bytes), (∀ x ∈ xs, ∀ b ∈ x, b < 256) →
      (xs.map (fun x => QueryEscape k ++ [61] ++ QueryEscape x)).foldl parsePiece
        (A ++ [(k, pre)], none) = (A ++ [(k, pre ++ xs)], none) := by
  intro xs
  induction xs with
  | nil => intro pre _; simp
  | cons x rest ih =>
    intro pre hx
    rw [List.map_cons, List.foldl_cons,
      parsePiece_pair _ k x hk (hx x (List.mem_cons_self _ _))]
    have hadd : Values.Add (A ++ [(k, pre)]) k x = A ++ [(k, pre ++ [x])] := by
      rw [Add_append k x A _ hA]
      simp [Values.Add]
    simp only [hadd]
    rw [ih (pre ++ [x]) (fun y hy => hx y (List.mem_cons_of_mem _ hy))]
    simp

theorem foldl_entries : ∀ (W A : Values), Values.Sorted (A ++ W) → W.Proper →
    (W.flatMap (fun kv => kv.2.map
        (fun x => QueryEscape kv.1 ++ [61] ++ QueryEscape x))).foldl parsePiece (A, none) =
      (A ++ W, none) := by
  intro W
  induction W with
  | nil => intro A _ _; simp
  | cons q rest ih =>
    intro A hs hw
    obtain ⟨k, vs⟩ := q
    have hq := hw (k, vs) (List.mem_cons_self _ _)
    have hA : ∀ p ∈ A, bytesLt p.1 k = true := by
      intro p hp
      unfold Values.Sorted at hs
      rw [List.pairwise_append] at hs
      exact hs.2.2 p hp (k, vs) (List.mem_cons_self _ _)
    cases vs with
    | nil => exact absurd rfl hq.1
    | cons x xs =>
      rw [List.flatMap_cons, List.foldl_append]
      simp only [List.map_cons, List.foldl_cons]
      rw [parsePiece_pair _ k x hq.2.1 (hq.2.2 x (List.mem_cons_self _ _))]
      have hadd : Values.Add A k x = A ++ [(k, [x])] := by
        have := Add_append k x A [] hA
        simpa [Values.Add] using this
      simp only [hadd]
      rw [foldl_values k hq.2.1 A hA xs [x]
        (fun y hy => hq.2.2 y (List.mem_cons_of_mem _ hy))]
      have hs2 : Values.Sorted ((A ++ [(k, x :: xs)]) ++ rest) := by
        simpa using hs
      have := ih (A ++ [(k, x :: xs)]) hs2 (fun p hp => hw p (List.mem_cons_of_mem _ hp))
      simpa using this

/-- Parsing the encoding of a well-formed `Values` gives it back, without
error. -/
theorem ParseQuery_Encode (W : Values) (hs : W.Sorted) (hw : W.Proper) :
    ParseQuery (Values.Encode W) = (W, none) := by
  cases hW : W with
  | nil => rfl
  | cons q rest =>
    rw [← hW]
    have hne : W.flatMap (fun kv => kv.2.map
        (fun x => QueryEscape kv.1 ++ [61] ++ QueryEscape x)) ≠ [] := by
      rw [hW]
      obtain ⟨k, vs⟩ := q
      have hq := hw (k, vs) (by rw [hW]; exact List.mem_cons_self _ _)
      cases vs with
      | nil => exact absurd rfl hq.1
      | cons x xs => simp
    have hsafe : ∀ s ∈ W.flatMap (fun kv => kv.2.map
        (fun x => QueryEscape kv.1 ++ [61] ++ QueryEscape x)), ∀ y ∈ s, y ≠ 38 := by
      intro s hs1 y hy
      rw [List.mem_flatMap] at hs1
      obtain ⟨kv, hkv, hs2⟩ := hs1
      rw [List.mem_map] at hs2
      obtain ⟨x, hx, rfl⟩ := hs2
      have hp := hw kv hkv
      rcases List.mem_append.mp hy with hy | hy
      · rcases List.mem_append.mp hy with hy | hy
        · exact (QueryEscape_safe kv.1 hp.2.1 y hy).1
        · rw [List.mem_singleton] at hy
          subst hy
          decide
      · exact (QueryEscape_safe x (hp.2.2 x hx) y hy).1
    unfold ParseQuery Values.Encode
    rw [pieces_intercalate _ hne hsafe]
    have := foldl_entries W [] (by simpa using hs) hw
    simpa using this

theorem Get_Set_same (k v : Bytes) : ∀ (W : Values), (Values.Set W k v).Get k = [v] := by
  intro W
  induction W with
  | nil => simp [Values.Set, Values.Get]
  | cons q rest ih =>
    obtain ⟨k0, vs⟩ := q
    unfold Values.Set
    by_cases h1 : k = k0
    · rw [if_pos h1]; simp [Values.Get]
    · rw [if_neg h1]
      by_cases h2 : bytesLt k k0 = true
      · rw [if_pos h2]; simp [Values.Get]
      · rw [if_neg h2, Values.Get, if_neg (fun h => h1 h.symm)]
        exact ih

theorem Get_Set_other (k v key : Bytes) (hne : key ≠ k) :
    ∀ (W : Values), (Values.Set W k v).Get key = W.Get key := by
  intro W
  induction W with
  | nil => simp [Values.Set, Values.Get, Ne.symm hne]
  | cons q rest ih =>
    obtain ⟨k0, vs⟩ := q
    unfold Values.Set
    by_cases h1 : k = k0
    · rw [if_pos h1]
      subst h1
      simp [Values.Get, Ne.symm hne]
    · rw [if_neg h1]
      by_cases h2 : bytesLt k k0 = true
      · rw [if_pos h2]
        rw [Values.Get, if_neg (Ne.symm hne)]
      · rw [if_neg h2]
        by_cases h3 : k0 = key
        · simp [Values.Get, h3]
        · rw [Values.Get, if_neg h3, ih, Values.Get, if_neg h3]

theorem searchRequest_parse (c : Client) (e : ForemanOrganization) :
    ParseQuery (searchRequest c e).rawQuery =
      (Values.Set (ParseQuery (utf8 c.serverQuery)).1 (utf8 "search")
        (utf8 ("name=\"" ++ e.Name ++ "\"")), none) := by
  have hb := ParseQuery_wf (utf8 c.serverQuery) (utf8_lt _)
  exact ParseQuery_Encode _ (Set_sorted _ _ _ hb.1)
    (Set_proper _ _ (utf8_lt _) (utf8_lt _) _ hb.2)

/-- C3, as stated, fails: for a client whose requests start with the query
string `foo=bar`, the request `QueryOrganization` sends has two parameters,
`foo` and `search`. -/
theorem query_keeps_server_parameters :
    taggedClient.requestError "GET" "/organizations" none = none ∧
    ∃ req, (QueryOrganization taggedClient ⟨⟨0, "production"⟩⟩).sent = [req] ∧
      ParseQuery req.rawQuery =
        ([(utf8 "foo", [utf8 "bar"]), (utf8 "search", [utf8 "name=\"production\""])], none) ∧
      (ParseQuery req.rawQuery).1.length = 2 := by
  refine ⟨rfl, searchRequest taggedClient ⟨⟨0, "production"⟩⟩, query_sent_eq _ _ rfl, ?_, ?_⟩
  · decide
  · decide

/-- C3, amended: when the request can be built, `QueryOrganization` sends one
request, a `GET` of `/organizations`; parsing its raw query (`url.ParseQuery`)
gives, without error, the parameters of the query string the built request
started with, with `search` set to the single value `name=`, a double quote,
the bytes of `e.Name` as they are, and a double quote, for every name: `search`
has exactly that value, every other parameter has the values it had, and when
the built request has no query string `search` is the only parameter. -/
theorem query_search_parameter (c : Client) (e : ForemanOrganization)
    (h : c.requestError "GET" "/organizations" none = none) :
    ∃ req, (QueryOrganization c e).sent = [req] ∧
      req.method = "GET" ∧ req.endpoint = "/organizations" ∧
      ParseQuery req.rawQuery =
        (Values.Set (ParseQuery (utf8 c.serverQuery)).1 (utf8 "search")
          (utf8 ("name=\"" ++ e.Name ++ "\"")), none) ∧
      (ParseQuery req.rawQuery).1.Get (utf8 "search") =
        [utf8 ("name=\"" ++ e.Name ++ "\"")] ∧
      (∀ key, key ≠ utf8 "search" →
        (ParseQuery req.rawQuery).1.Get key = (ParseQuery (utf8 c.serverQuery)).1.Get key) ∧
      (c.serverQuery = "" →
        ParseQuery req.rawQuery =
          ([(utf8 "search", [utf8 ("name=\"" ++ e.Name ++ "\"")])], none)) ∧
      utf8 ("name=\"" ++ e.Name ++ "\"") = utf8 "name=\"" ++ utf8 e.Name ++ utf8 "\"" := by
  refine ⟨searchRequest c e, query_sent_eq c e h, rfl, rfl, searchRequest_parse c e,
    ?_, ?_, ?_, ?_⟩
  · rw [searchRequest_parse]
    exact Get_Set_same _ _ _
  · intro key hkey
    rw [searchRequest_parse]
    exact Get_Set_other _ _ _ hkey _
  · intro hq
    rw [searchRequest_parse, hq]
    rfl
  · rw [utf8_append, utf8_append]

/-- Instance of the amended C3: for the name `a"b&c=d e` and a client without
server query string the raw query sent, `search=name%3D%22a%22b%26c%3Dd+e%22`,
parses back to the one parameter `search` with the value `name="a"b&c=d e"`. -/
theorem query_search_parameter_witness :
    ∃ req, (QueryOrganization okClient ⟨⟨0, "a\"b&c=d e"⟩⟩).sent = [req] ∧
      req.method = "GET" ∧ req.endpoint = "/organizations" ∧
      ParseQuery req.rawQuery =
        ([(utf8 "search", [utf8 ("name=\"" ++ "a\"b&c=d e" ++ "\"")])], none) := by
  obtain ⟨req, h1, h2, h3, _, _, _, h4, _⟩ :=
    query_search_parameter okClient ⟨⟨0, "a\"b&c=d e"⟩⟩ rfl
  exact ⟨req, h1, h2, h3, h4 rfl⟩

/-- The raw query of the instance above, spelled out. -/
theorem query_search_raw_example :
    (searchRequest okClient ⟨⟨0, "a\"b&c=d e"⟩⟩).rawQuery =
      utf8 "search=name%3D%22a%22b%26c%3Dd+e%22" := by
  decide

/-- The raw query sent by the client whose requests start with `foo=bar`. -/
theorem query_tagged_raw_example :
    (searchRequest taggedClient ⟨⟨0, "production"⟩⟩).rawQuery =
      utf8 "foo=bar&search=name%3D%22production%22" := by
  decide

end Foreman
